import Mathlib

/-!
Verification of the schema-driven graph translation core of `appnlib`
(`src/appnlib/core/graph.py`) against its natural-language specification.

The embedding translates `graph.py` function by function.  Supporting
modules of the repository (`appnlib.core.schema`, `appnlib.core.utils`,
`appnlib.core.json`, `appnlib.core.struct`, `appnlib.core.exceptions`)
are not part of the sources; the definitions that stand in for them are
modelled from the specification and carry a doc comment saying so.

Modelling conventions:
* A graph is the ordered duplicate-free list of its triples (rdflib's
  default in-memory store has set semantics and iterates triples in
  insertion order).
* Reads on the graph container never modify it (external contract,
  spec section 6).  Operations that in Python receive a graph object
  return the state of that input graph alongside their result, so that
  frame properties are statable; the mutating encode path returns the
  written graph, and errors raised on that path carry the state of the
  target graph at the moment of the raise.
* Python exceptions become the `PyErr` sum type; the constructor is the
  exception's class, the payload its message.
-/

namespace Appnlib

/-- The `rdf:type` predicate IRI (`rdflib.namespace.RDF.type`). -/
def rdfType : String := "http://www.w3.org/1999/02/22-rdf-syntax-ns#type"

/-- A graph node as it can appear in object position: a `URIRef`, an
rdflib `Literal` with a datatype tag, or a plain Python string (such as
`str(item)` stored under the reserved `id` key during decoding). -/
inductive Node where
  | ref (iri : String)
  | lit (val : String) (dtype : String)
  | pystr (s : String)
deriving DecidableEq, Repr

/-- A subject-predicate-object statement. -/
abbrev Triple := String × String × Node

/-- An rdflib `Graph`: set of triples, kept in insertion order. -/
structure Graph where
  triples : List Triple
deriving DecidableEq, Repr

/-- `Graph.add`: set semantics, inserting a present triple is a no-op,
a fresh triple is appended (insertion-order iteration). -/
def Graph.add (g : Graph) (t : Triple) : Graph :=
  if t ∈ g.triples then g else ⟨g.triples ++ [t]⟩

/-- Membership test `(s, None, None) in graph`: is `s` a subject? -/
def Graph.hasSubject (g : Graph) (s : String) : Bool :=
  g.triples.any (fun t => decide (t.1 = s))

/-- Membership test for a fully-specified triple pattern. -/
def Graph.hasTriple (g : Graph) (t : Triple) : Bool :=
  decide (t ∈ g.triples)

/-- First-occurrence deduplication with an accumulator of already seen
elements: mirrors rdflib's `unique=True` iteration, which keeps the
first occurrence of each repeated element. -/
def dedupAux {α : Type} [DecidableEq α] : List α → List α → List α
  | [], _ => []
  | a :: l, seen => if a ∈ seen then dedupAux l seen else a :: dedupAux l (a :: seen)

/-- First-occurrence deduplication of a list. -/
def dedupF {α : Type} [DecidableEq α] (l : List α) : List α :=
  dedupAux l []

/-- `graph.predicate_objects(subject, unique=True)`: the (predicate,
object) pairs of the triples with the given subject, deduplicated,
first occurrences kept, in graph order. -/
def Graph.predicateObjects (g : Graph) (subj : String) : List (String × Node) :=
  dedupF ((g.triples.filter (fun t => decide (t.1 = subj))).map (fun t => (t.2.1, t.2.2)))

/-- `graph.subjects(predicate=RDF.type, object=obj)`: subjects of
`rdf:type` triples; `obj = none` is the wildcard object, as in
`_get_subjects` when no schema is supplied.  Returned as the
deduplicated list standing for the Python set. -/
def Graph.subjectsByType (g : Graph) (obj : Option String) : List String :=
  dedupF ((g.triples.filter (fun t =>
    decide (t.2.1 = rdfType) &&
      (match obj with
       | none => true
       | some r => decide (t.2.2 = Node.ref r)))).map (fun t => t.1))

/-- Python exceptions raised by the translation core.  `valueError`,
`keyError`, `attributeError`, `indexError` are builtins; the rest are
`appnlib.core.exceptions` classes (module not in the sources, the
constructor names follow the `import` statements of `graph.py`). -/
inductive PyErr where
  | valueError (msg : String)
  | annotationError (msg : String)
  | missingSchema (msg : String)
  | validationError (msg : String)
  | keyError (key : String)
  | attributeError (msg : String)
  | indexError (msg : String)
deriving DecidableEq, Repr

/-- The exception class of an error, as the name a Python `except`
clause would match on. -/
def PyErr.kind : PyErr → String
  | .valueError _ => "ValueError"
  | .annotationError _ => "AnnotationError"
  | .missingSchema _ => "MissingSchema"
  | .validationError _ => "ValidationError"
  | .keyError _ => "KeyError"
  | .attributeError _ => "AttributeError"
  | .indexError _ => "IndexError"

/-- Modelled from the spec: `FieldInfo.range` (`appnlib.core.schema` is
not in the sources).  Either the `IDRef` relation marker or a literal
datatype tag (spec section 3, `valueKind`). -/
inductive RangeKind where
  | idref
  | dtype (datatype : String)
deriving DecidableEq, Repr

/-- Modelled from the spec: `appnlib.core.schema.FieldInfo` — predicate
reference, value kind and cardinality flag (spec section 3). -/
structure FieldInfo where
  ref : String
  range : RangeKind
  repeatable : Bool
deriving DecidableEq, Repr

/-- Modelled from the spec: `appnlib.core.schema.Schema` — the entity
type IRI (`__rdf_resource__`) and the ordered field-name → `FieldInfo`
mapping (`attrs` / `name_mapping`, spec section 3). -/
structure Schema where
  rdf_resource : String
  attrs : List (String × FieldInfo)
deriving DecidableEq, Repr

/-- `schema.name_mapping`: the ordered field mapping itself. -/
def Schema.name_mapping (sc : Schema) : List (String × FieldInfo) := sc.attrs

/-- `schema.ref_mapping[pred]` followed by `schema.attrs[pred_str]`:
the field (name and info) whose predicate reference is `pred`.
`none` models the `KeyError` on an unmapped predicate.  The spec
(section 3) makes the predicate → field mapping total and injective, so
taking the first matching entry is faithful. -/
def Schema.ref_mapping (sc : Schema) (pred : String) : Option (String × FieldInfo) :=
  sc.attrs.find? (fun p => decide (p.2.ref = pred))

/-- A Python value held by a record field: `None`, a scalar (strings
stand for all scalar payloads), or a list. -/
inductive Value where
  | vnone
  | vstr (s : String)
  | vlist (items : List Value)

mutual
/-- Boolean equality on values (the nested list forces a handwritten
instance). -/
def Value.beq : Value → Value → Bool
  | .vnone, .vnone => true
  | .vstr a, .vstr b => decide (a = b)
  | .vlist a, .vlist b => Value.beqList a b
  | _, _ => false

/-- Boolean equality on lists of values. -/
def Value.beqList : List Value → List Value → Bool
  | [], [] => true
  | a :: as, b :: bs => Value.beq a b && Value.beqList as bs
  | _, _ => false
end

mutual
def Value.eq_of_beq : ∀ {a b : Value}, Value.beq a b = true → a = b
  | .vnone, .vnone, _ => rfl
  | .vstr _, .vstr _, h => by
    simp only [Value.beq, decide_eq_true_eq] at h; exact congrArg Value.vstr h
  | .vlist _, .vlist _, h => congrArg Value.vlist (Value.eqList_of_beq h)

def Value.eqList_of_beq : ∀ {a b : List Value}, Value.beqList a b = true → a = b
  | [], [], _ => rfl
  | a :: _, b :: _, h => by
    simp only [Value.beqList, Bool.and_eq_true] at h
    exact congrArg₂ List.cons (Value.eq_of_beq h.1) (Value.eqList_of_beq h.2)
end

mutual
def Value.beq_refl : ∀ a : Value, Value.beq a a = true
  | .vnone => rfl
  | .vstr s => by simp [Value.beq]
  | .vlist l => Value.beqList_refl l

def Value.beqList_refl : ∀ a : List Value, Value.beqList a a = true
  | [] => rfl
  | a :: as => by
    simp only [Value.beqList, Bool.and_eq_true]
    exact ⟨Value.beq_refl a, Value.beqList_refl as⟩
end

instance : DecidableEq Value := fun a b =>
  if h : Value.beq a b = true then Decidable.isTrue (Value.eq_of_beq h)
  else Decidable.isFalse (fun he => h (he ▸ Value.beq_refl a))

/-- A record instance (`LinkedDataClass` instance or dict): its
readable fields and, when present, its own `__schema__`. -/
structure StructRec where
  fields : List (String × Value)
  schema : Option Schema := none
deriving DecidableEq

/-- Modelled from the spec: `appnlib.core.utils.get_key_or_attribute`
(module not in the sources; spec sections 3 and 9: structural field
access on mapping-like or attribute-like records).  `none` models a
missing key/attribute; a present key holding `None` yields
`some .vnone`. -/
def get_key_or_attribute (name : String) (s : StructRec) : Option Value :=
  (s.fields.find? (fun p => decide (p.1 = name))).map (fun p => p.2)

/-- The `get_key_or_attribute(name, struct) is not None` test of
`from_struct`: the key is present and its value is not `None`. -/
def keyPresentNonNone (name : String) (s : StructRec) : Bool :=
  match get_key_or_attribute name s with
  | some v => decide (v ≠ Value.vnone)
  | none => false

/-- Modelled from the spec: `appnlib.core.utils.make_ref` (module not
in the sources; spec section 4.2: "normalize identifier to the graph's
reference kind").  Identifiers are already modelled as reference
strings, so normalization is the identity. -/
def make_ref (s : String) : String := s

/-- `str(value)` as used for the describer subject; only scalar
identifiers are exercised by the verified scenarios. -/
def Value.toSubj : Value → String
  | .vstr s => s
  | .vnone => "None"
  | .vlist _ => "[...]"

/-- The object node emitted for a scalar field value: a reference for
the `IDRef` relation marker, otherwise a literal carrying the declared
datatype. -/
def nodeOf (info : FieldInfo) (s : String) : Node :=
  match info.range with
  | .idref => Node.ref s
  | .dtype dt => Node.lit s dt

/-- The single triple emitted for a scalar field value: a relation edge
for `IDRef` ranges (`describer.rel`), otherwise a literal carrying the
declared datatype (`describer.value`). -/
def scalarTriple (subj : String) (info : FieldInfo) (s : String) : Triple :=
  (subj, info.ref, nodeOf info s)

mutual
/-- `_describer_add_value` of `graph.py`: `None` emits nothing; a
non-string sized collection recurses per element; a scalar emits one
triple, a relation edge when the range is `IDRef`, otherwise a typed
literal. -/
def describer_add_value (g : Graph) (subj : String) (value : Value) (info : FieldInfo) : Graph :=
  match value with
  | .vnone => g
  | .vlist items => describer_add_list g subj items info
  | .vstr s => g.add (scalarTriple subj info s)

/-- The `for item in value` loop of `_describer_add_value`. -/
def describer_add_list (g : Graph) (subj : String) (items : List Value) (info : FieldInfo) :
    Graph :=
  match items with
  | [] => g
  | v :: rest => describer_add_list (describer_add_value g subj v info) subj rest info
end

/-- Truthiness of the `identifier` argument (`if identifier:`): `None`
and the empty string are falsy. -/
def truthyId : Option String → Bool
  | none => false
  | some s => decide (s ≠ "")

/-- The fall-through branch of `_get_subjects` (lines 80-86 of
`graph.py`): all subjects carrying `rdf:type` with the schema's
resource as object, or with any object when no schema is given. -/
def get_subjects_typed (g : Graph) (schema : Option Schema) : List String :=
  g.subjectsByType (schema.map (fun sc => sc.rdf_resource))

/-- `_get_subjects` of `graph.py`.  Returns the state of the input
graph (never modified: reads only) and the resolved subject set (as a
deduplicated list) or the raised error. -/
def get_subjects (g : Graph) (identifier : Option String) (schema : Option Schema) :
    Graph × Except PyErr (List String) :=
  match identifier with
  | some i =>
    if i = "" then (g, Except.ok (get_subjects_typed g schema))
    else
      let i := make_ref i
      if ¬ g.hasSubject i then
        (g, Except.error (PyErr.valueError ("Identifier: " ++ i ++ " not in graph")))
      else
        match schema with
        | some sc =>
          if ¬ g.hasTriple (i, rdfType, Node.ref sc.rdf_resource) then
            (g, Except.error (PyErr.valueError
              ("Object identified by id: " ++ i ++ " is not of type: " ++
                sc.rdf_resource ++ " in graph")))
          else (g, Except.ok [i])
        | none => (g, Except.ok [i])
  | none => (g, Except.ok (get_subjects_typed g schema))

/-- A value accumulated for one key of the attribute mapping: a single
stored value or the list the code grows for repeated occurrences. -/
inductive AttrVal where
  | single (n : Node)
  | many (l : List Node)
deriving DecidableEq, Repr

/-- Python `attrs[k]` read: first entry with the key. -/
def lookupA (attrs : List (String × AttrVal)) (k : String) : Option AttrVal :=
  (attrs.find? (fun p => decide (p.1 = k))).map (fun p => p.2)

/-- Python `attrs[k] = v` write: replace in place, keeping the key's
position, or append a new entry (dict insertion-order semantics).
In-place `attrs[k].append(x)` is the same as writing the grown list. -/
def setA (attrs : List (String × AttrVal)) (k : String) (v : AttrVal) :
    List (String × AttrVal) :=
  match attrs with
  | [] => [(k, v)]
  | (k', v') :: rest => if k' = k then (k, v) :: rest else (k', v') :: setA rest k v

/-- `_update_attrs_from_stmt` of `graph.py`: folds one statement into
the attribute mapping.  `rdf:type` statements are skipped.  Without a
schema, occurrences group under the raw predicate (scalar, then
two-element list, then append).  With a schema, the predicate is
renamed through `ref_mapping` (a miss is the `KeyError` of the dict
subscript); repeatable fields always accumulate a list, a second value
for a non-repeatable field raises `AnnotationError` (a `.append` on the
stored non-list — possible only for a pre-seeded key such as `id` —
raises `AttributeError`). -/
def update_attrs_from_stmt (pred : String) (value : Node)
    (attrs : List (String × AttrVal)) (schema : Option Schema) :
    Except PyErr (List (String × AttrVal)) :=
  if pred = rdfType then Except.ok attrs
  else
    match schema with
    | none =>
      match lookupA attrs pred with
      | none => Except.ok (setA attrs pred (AttrVal.single value))
      | some (AttrVal.single x) => Except.ok (setA attrs pred (AttrVal.many [x, value]))
      | some (AttrVal.many l) => Except.ok (setA attrs pred (AttrVal.many (l ++ [value])))
    | some sc =>
      match sc.ref_mapping pred with
      | none => Except.error (PyErr.keyError pred)
      | some (name, info) =>
        if info.repeatable then
          match lookupA attrs name with
          | none => Except.ok (setA attrs name (AttrVal.many [value]))
          | some (AttrVal.many l) => Except.ok (setA attrs name (AttrVal.many (l ++ [value])))
          | some (AttrVal.single _) =>
            Except.error (PyErr.attributeError "append")
        else
          match lookupA attrs name with
          | none => Except.ok (setA attrs name (AttrVal.single value))
          | some _ =>
            Except.error (PyErr.annotationError
              ("Field: " ++ name ++
                " not annotated with repeat, but receives collection like value"))

/-- The `for ref, value in stmts` loop of `to_builtin`. -/
def fold_stmts (stmts : List (String × Node)) (attrs : List (String × AttrVal))
    (schema : Option Schema) : Except PyErr (List (String × AttrVal)) :=
  match stmts with
  | [] => Except.ok attrs
  | (p, o) :: rest =>
    match update_attrs_from_stmt p o attrs schema with
    | Except.error e => Except.error e
    | Except.ok a => fold_stmts rest a schema

/-- A builtin value after `msgspec.to_builtins`. -/
inductive BVal where
  | bsingle (s : String)
  | bmany (l : List String)
deriving DecidableEq, Repr

/-- Modelled from the spec: the scalar normalization performed by
`msgspec.to_builtins` with `enc_hook` (`appnlib.core.json` is not in
the sources; spec section 4.5: extended scalar kinds are normalized to
interchange-safe plain values).  A reference or literal node collapses
to its payload string. -/
def nodeToB : Node → String
  | .ref s => s
  | .lit v _ => v
  | .pystr s => s

/-- The builtin image of one folded attribute mapping. -/
def attrsToBuiltin (attrs : List (String × AttrVal)) : List (String × BVal) :=
  attrs.map (fun p =>
    match p.2 with
    | AttrVal.single n => (p.1, BVal.bsingle (nodeToB n))
    | AttrVal.many l => (p.1, BVal.bmany (l.map nodeToB)))

/-- One iteration of the `for item in id_pool` loop of `to_builtin`:
read the subject's statements and fold them, starting from the mapping
pre-seeded with the reserved `id` key. -/
def to_builtin_item (g : Graph) (schema : Option Schema) (item : String) :
    Except PyErr (List (String × AttrVal)) :=
  fold_stmts (g.predicateObjects item) [("id", AttrVal.single (Node.pystr item))] schema

/-- The whole `for item in id_pool` loop. -/
def to_builtin_items (g : Graph) (schema : Option Schema) :
    List String → Except PyErr (List (List (String × AttrVal)))
  | [] => Except.ok []
  | i :: rest =>
    match to_builtin_item g schema i with
    | Except.error e => Except.error e
    | Except.ok attrs =>
      match to_builtin_items g schema rest with
      | Except.error e => Except.error e
      | Except.ok l => Except.ok (attrs :: l)

/-- `to_builtin` of `graph.py`: resolve the subject pool, fold each
subject's statements, convert to builtins.  The input graph is only
read; its state is returned unchanged alongside the result. -/
def to_builtin (g : Graph) (identifier : Option String) (schema : Option Schema) :
    Graph × Except PyErr (List (List (String × BVal))) :=
  match get_subjects g identifier schema with
  | (g1, Except.error e) => (g1, Except.error e)
  | (g1, Except.ok pool) =>
    match to_builtin_items g1 schema pool with
    | Except.error e => (g1, Except.error e)
    | Except.ok items => (g1, Except.ok (items.map attrsToBuiltin))

/-- `sub_graph` of `graph.py`: fail when the identifier is not a
subject; otherwise re-emit the subject's deduplicated (predicate,
object) pairs into a fresh graph.  The input graph is only read; its
state is returned unchanged alongside the result. -/
def sub_graph (g : Graph) (identifier : String) : Graph × Except PyErr Graph :=
  let i := make_ref identifier
  if ¬ g.hasSubject i then
    (g, Except.error (PyErr.valueError ("Identifier " ++ i ++ " not present in graph")))
  else
    (g, Except.ok ((g.predicateObjects i).foldl
      (fun (s : Graph) po => s.add (i, po.1, po.2)) ⟨[]⟩))

/-- Modelled from the spec: `appnlib.core.utils.validate_schema`
(module not in the sources; spec section 4.4: validate that the record
exposes every schema-declared field before any emission). -/
def validate_schema (r : StructRec) (sc : Schema) : Except PyErr Unit :=
  if sc.attrs.all (fun p => (get_key_or_attribute p.1 r).isSome) then Except.ok ()
  else Except.error (PyErr.validationError "struct does not conform to schema")

/-- The identifier extraction of `from_struct` (lines 165-172): the
primary `ID` spelling wins, then the `id` fallback, checked by the
`is not None` tests; exposing neither is a `ValueError`. -/
def extract_id (r : StructRec) : Except PyErr Value :=
  if keyPresentNonNone "ID" r then
    Except.ok ((get_key_or_attribute "ID" r).getD Value.vnone)
  else if keyPresentNonNone "id" r then
    Except.ok ((get_key_or_attribute "id" r).getD Value.vnone)
  else
    Except.error (PyErr.valueError "Missing ID/id field in object in from_struct operation")

/-- The `for name, info in schema.name_mapping.items()` loop of
`from_struct`: read each declared field off the record (a missing
field is an error, spec section 4.4) and delegate to the value
emitter.  An error carries the state of the target graph at the raise
(partial emission is visible to the caller, spec section 7). -/
def emit_fields (subj : String) (r : StructRec) (fields : List (String × FieldInfo))
    (g : Graph) : Except (PyErr × Graph) Graph :=
  match fields with
  | [] => Except.ok g
  | (name, info) :: rest =>
    match get_key_or_attribute name r with
    | none => Except.error (PyErr.attributeError name, g)
    | some v => emit_fields subj r rest (describer_add_value g subj v info)

/-- `from_struct` of `graph.py`: resolve and validate the schema,
resolve or create the target graph, extract the mandatory identifier,
emit the `rdf:type` triple, then every declared field.  Errors carry
the caller-visible state of the target graph at the raise (the
caller-supplied graph, or the fresh one).  The graph-label
`identifier` parameter only tags the created graph and does not affect
its triples, so it is not modelled. -/
def from_struct (r : StructRec) (schema : Option Schema) (graph : Option Graph) :
    Except (PyErr × Graph) Graph :=
  let g0 : Graph := graph.getD ⟨[]⟩
  match (match schema with
         | some sc => (validate_schema r sc).map (fun _ => sc)
         | none =>
           match r.schema with
           | some sc => Except.ok sc
           | none => Except.error
               (PyErr.missingSchema "A schema must be provided to convert struct to graph")) with
  | Except.error e => Except.error (e, g0)
  | Except.ok sc =>
    match extract_id r with
    | Except.error e => Except.error (e, g0)
    | Except.ok idv =>
      let subj := idv.toSubj
      let g2 := g0.add (subj, rdfType, Node.ref sc.rdf_resource)
      emit_fields subj r sc.name_mapping g2

/-- Python `item[k]` read on a builtin mapping. -/
def lookupB (item : List (String × BVal)) (k : String) : Option BVal :=
  (item.find? (fun p => decide (p.1 = k))).map (fun p => p.2)

/-- Modelled from the spec: `msgspec.convert(mapping, type=model_cls,
strict=False)` with `dec_hook` (`appnlib.core.json` and
`appnlib.core.struct` are not in the sources; spec section 4.6:
tolerant typed decode — every schema-declared field is read off the
mapping, unknown keys are ignored, a missing field is absent). -/
def convertToStruct (item : List (String × BVal)) (sc : Schema) : StructRec :=
  { fields := sc.attrs.map (fun p =>
      (p.1,
        match lookupB item p.1 with
        | none => Value.vnone
        | some (BVal.bsingle s) => Value.vstr s
        | some (BVal.bmany l) => Value.vlist (l.map Value.vstr))),
    schema := some sc }

/-- `to_struct` of `graph.py`: default the schema to the model class's
own (`mcSchema` stands for `model_cls.__schema__`), decode through
`to_builtin` with the single identifier, convert the first mapping.
The input graph is only read; its state is returned unchanged. -/
def to_struct (g : Graph) (identifier : String) (mcSchema : Schema)
    (schema : Option Schema) : Graph × Except PyErr StructRec :=
  let sc := schema.getD mcSchema
  match to_builtin g (some identifier) (some sc) with
  | (g1, Except.error e) => (g1, Except.error e)
  | (g1, Except.ok []) => (g1, Except.error (PyErr.indexError "list index out of range"))
  | (g1, Except.ok (item :: _)) => (g1, Except.ok (convertToStruct item sc))

/-! ### Specification-side notions

Conformance of a record to a schema, schema well-formedness, and the
triple/attribute images of one field, used to state and prove the
round-trip and cardinality properties. -/

/-- The value a record holds for a field (absent reads as `None`). -/
def fieldValue (r : StructRec) (name : String) : Value :=
  (get_key_or_attribute name r).getD Value.vnone

/-- Is every element of the list a scalar string? -/
def isStrList : List Value → Bool
  | [] => true
  | Value.vstr _ :: rest => isStrList rest
  | _ => false

/-- The scalar payloads of a list of values. -/
def strsOf (l : List Value) : List String :=
  l.filterMap (fun v => match v with | Value.vstr s => some s | _ => none)

/-- Shape conformance of one field value (spec section 3): a
non-repeatable field holds a scalar or `None`, a repeatable field holds
a sequence of scalars or `None`. -/
def shapeOKb (info : FieldInfo) : Value → Bool
  | Value.vnone => true
  | Value.vstr _ => !info.repeatable
  | Value.vlist l => info.repeatable && isStrList l

/-- A record's fields conform to the schema: every declared field is
readable and has a conforming shape. -/
def conformsTo (r : StructRec) (sc : Schema) : Bool :=
  sc.attrs.all (fun p =>
    match get_key_or_attribute p.1 r with
    | some v => shapeOKb p.2 v
    | none => false)

/-- Sequence-valued fields are nonempty and duplicate-free. -/
def strictValues (r : StructRec) (sc : Schema) : Bool :=
  sc.attrs.all (fun p =>
    match get_key_or_attribute p.1 r with
    | some (Value.vlist l) => !l.isEmpty && decide l.Nodup
    | _ => true)

/-- Schema well-formedness (spec section 3): distinct field names,
a total injective field ↔ predicate correspondence (distinct predicate
references), no predicate clashing with `rdf:type`, and no field named
after the reserved `id` key of the attribute mapping. -/
def wfSchema (sc : Schema) : Bool :=
  decide ((sc.attrs.map Prod.fst).Nodup) &&
  decide ((sc.attrs.map (fun p => p.2.ref)).Nodup) &&
  sc.attrs.all (fun p => decide (p.2.ref ≠ rdfType)) &&
  decide ("id" ∉ sc.attrs.map Prod.fst)

/-- The triples `_describer_add_value` emits for one field. -/
def fieldTriples (subj : String) (info : FieldInfo) : Value → List Triple
  | Value.vnone => []
  | Value.vstr s => [scalarTriple subj info s]
  | Value.vlist l => (strsOf l).map (scalarTriple subj info)

/-- The full triple list `from_struct` produces on a fresh graph: the
`rdf:type` triple, then each declared field's triples in schema order. -/
def allTriples (subj : String) (r : StructRec) (sc : Schema) : List Triple :=
  (subj, rdfType, Node.ref sc.rdf_resource) ::
    (sc.attrs.map (fun p => fieldTriples subj p.2 (fieldValue r p.1))).flatten

/-- The attribute-mapping entry the schema-aware fold accumulates for
one field: nothing for an unrepresented field, a single stored node for
a non-repeatable scalar, the grown list for a repeatable sequence. -/
def attrEntry (name : String) (info : FieldInfo) : Value → List (String × AttrVal)
  | Value.vnone => []
  | Value.vstr s => [(name, AttrVal.single (nodeOf info s))]
  | Value.vlist l =>
    if strsOf l = [] then []
    else [(name, AttrVal.many ((strsOf l).map (nodeOf info)))]

/-- The keys of an attribute mapping. -/
def keysA (attrs : List (String × AttrVal)) : List String := attrs.map Prod.fst

/-! ### Concrete instances used by witnesses and counterexamples -/

/-- A two-field schema: a non-repeatable literal `name` and a
repeatable relation `friends` (the example of spec section 8). -/
def scPerson : Schema := {
  rdf_resource := "ex:Person",
  attrs := [("name", { ref := "ex:name", range := RangeKind.dtype "xsd:string",
                       repeatable := false }),
            ("friends", { ref := "ex:knows", range := RangeKind.idref,
                          repeatable := true })] }

/-- The spec-section-8 example record. -/
def rAlice : StructRec := {
  fields := [("id", Value.vstr "ex:alice"),
             ("name", Value.vstr "Alice"),
             ("friends", Value.vlist [Value.vstr "ex:bob", Value.vstr "ex:carol"])] }

/-- A conforming record whose repeatable field holds a duplicate. -/
def rDup : StructRec := {
  fields := [("id", Value.vstr "ex:alice"),
             ("name", Value.vstr "Alice"),
             ("friends", Value.vlist [Value.vstr "ex:bob", Value.vstr "ex:bob"])] }

/-- The graph encoding `rDup`. -/
def gDup : Graph := (from_struct rDup (some scPerson) none).toOption.getD ⟨[]⟩

/-- The subgraph of `ex:alice` in `gDup`. -/
def subDup : Graph := ((sub_graph gDup "ex:alice").2).toOption.getD ⟨[]⟩

/-- The record decoded back from `subDup`. -/
def decDup : StructRec :=
  ((to_struct subDup "ex:alice" scPerson (some scPerson)).2).toOption.getD { fields := [] }

/-- A record exposing both identifier spellings with different values. -/
def rBothIds : StructRec := {
  fields := [("ID", Value.vstr "ex:primary"),
             ("id", Value.vstr "ex:fallback"),
             ("name", Value.vstr "Ada"),
             ("friends", Value.vlist [Value.vstr "ex:bob"])] }

/-- A record exposing neither identifier spelling. -/
def rNoId : StructRec := {
  fields := [("name", Value.vstr "Ada"),
             ("friends", Value.vlist [Value.vstr "ex:bob"])] }

/-- A graph in which `ex:alice` is a subject, but typed `ex:Robot`
rather than `scPerson`'s `ex:Person`. -/
def gWrongType : Graph :=
  ⟨[("ex:alice", rdfType, Node.ref "ex:Robot"),
    ("ex:alice", "ex:name", Node.lit "Alice" "xsd:string")]⟩

/-- A graph in which `ex:alice` is not a subject at all. -/
def gNotIn : Graph := ⟨[("ex:bob", rdfType, Node.ref "ex:Person")]⟩

/-! ## Supporting lemmas -/

theorem mem_dedupAux {α : Type} [DecidableEq α] (x : α) :
    ∀ (l seen : List α), x ∈ dedupAux l seen ↔ x ∈ l ∧ x ∉ seen
  | [], _ => by simp [dedupAux]
  | a :: l, seen => by
    by_cases h : a ∈ seen
    · rw [dedupAux, if_pos h, mem_dedupAux x l seen]
      constructor
      · rintro ⟨h1, h2⟩; exact ⟨List.mem_cons_of_mem a h1, h2⟩
      · rintro ⟨h1, h2⟩
        rcases List.mem_cons.mp h1 with rfl | h3
        · exact absurd h h2
        · exact ⟨h3, h2⟩
    · rw [dedupAux, if_neg h]
      constructor
      · intro hx
        rcases List.mem_cons.mp hx with rfl | hx'
        · exact ⟨List.mem_cons_self _ _, h⟩
        · have h' := (mem_dedupAux x l (a :: seen)).mp hx'
          exact ⟨List.mem_cons_of_mem a h'.1,
            fun hs => h'.2 (List.mem_cons_of_mem a hs)⟩
      · rintro ⟨h1, h2⟩
        rcases List.mem_cons.mp h1 with rfl | h3
        · exact List.mem_cons_self x _
        · by_cases hxa : x = a
          · subst hxa; exact List.mem_cons_self x _
          · exact List.mem_cons_of_mem a ((mem_dedupAux x l (a :: seen)).mpr
              ⟨h3, fun hs => (List.mem_cons.mp hs).elim hxa h2⟩)

theorem nodup_dedupAux {α : Type} [DecidableEq α] :
    ∀ (l seen : List α), (dedupAux l seen).Nodup
  | [], _ => List.nodup_nil
  | a :: l, seen => by
    by_cases h : a ∈ seen
    · rw [dedupAux, if_pos h]; exact nodup_dedupAux l seen
    · rw [dedupAux, if_neg h]
      refine List.nodup_cons.mpr ⟨fun hmem => ?_, nodup_dedupAux l (a :: seen)⟩
      exact ((mem_dedupAux a l (a :: seen)).mp hmem).2 (List.mem_cons_self a seen)

theorem dedupAux_eq_self {α : Type} [DecidableEq α] :
    ∀ (l seen : List α), l.Nodup → (∀ x ∈ l, x ∉ seen) → dedupAux l seen = l
  | [], _, _, _ => rfl
  | a :: l, seen, hnd, hdisj => by
    rw [dedupAux, if_neg (hdisj a (List.mem_cons_self a l))]
    refine congrArg (List.cons a) (dedupAux_eq_self l (a :: seen) (List.nodup_cons.mp hnd).2
      (fun x hx hmem => ?_))
    rcases List.mem_cons.mp hmem with h | h
    · exact (List.nodup_cons.mp hnd).1 (h ▸ hx)
    · exact hdisj x (List.mem_cons_of_mem _ hx) h

theorem mem_dedupF {α : Type} [DecidableEq α] (x : α) (l : List α) :
    x ∈ dedupF l ↔ x ∈ l := by
  rw [dedupF, mem_dedupAux]; simp

theorem nodup_dedupF {α : Type} [DecidableEq α] (l : List α) : (dedupF l).Nodup :=
  nodup_dedupAux l []

theorem dedupF_eq_self {α : Type} [DecidableEq α] (l : List α) (h : l.Nodup) :
    dedupF l = l :=
  dedupAux_eq_self l [] h (by simp)

theorem Graph.add_of_mem {g : Graph} {t : Triple} (h : t ∈ g.triples) : g.add t = g := by
  rw [Graph.add, if_pos h]

theorem Graph.add_of_not_mem {g : Graph} {t : Triple} (h : t ∉ g.triples) :
    (g.add t).triples = g.triples ++ [t] := by
  rw [Graph.add, if_neg h]

theorem Graph.hasSubject_iff {g : Graph} {s : String} :
    g.hasSubject s = true ↔ ∃ t ∈ g.triples, t.1 = s := by
  simp [Graph.hasSubject, List.any_eq_true]

theorem Graph.hasTriple_iff {g : Graph} {t : Triple} :
    g.hasTriple t = true ↔ t ∈ g.triples := by
  simp [Graph.hasTriple]

theorem Graph.mem_predicateObjects {g : Graph} {s p : String} {o : Node} :
    (p, o) ∈ g.predicateObjects s ↔ (s, p, o) ∈ g.triples := by
  rw [Graph.predicateObjects, mem_dedupF]
  constructor
  · intro h
    rcases List.mem_map.mp h with ⟨t, ht, heq⟩
    rcases List.mem_filter.mp ht with ⟨htmem, hts⟩
    have h1 : t.1 = s := by simpa using hts
    have : t = (s, p, o) := by
      rcases t with ⟨a, b, c⟩
      simp only [Prod.mk.injEq] at heq ⊢
      exact ⟨h1, heq.1, heq.2⟩
    exact this ▸ htmem
  · intro h
    exact List.mem_map.mpr ⟨(s, p, o), List.mem_filter.mpr ⟨h, by simp⟩, rfl⟩

theorem Graph.nodup_predicateObjects (g : Graph) (s : String) :
    (g.predicateObjects s).Nodup :=
  nodup_dedupF _

theorem Graph.mem_subjectsByType_some {g : Graph} {x r : String} :
    x ∈ g.subjectsByType (some r) ↔ (x, rdfType, Node.ref r) ∈ g.triples := by
  rw [Graph.subjectsByType, mem_dedupF]
  constructor
  · intro h
    rcases List.mem_map.mp h with ⟨t, ht, heq⟩
    rcases List.mem_filter.mp ht with ⟨htmem, hts⟩
    simp only [Bool.and_eq_true, decide_eq_true_eq] at hts
    have : t = (x, rdfType, Node.ref r) := by
      rcases t with ⟨a, b, c⟩
      simp only [Prod.mk.injEq]
      exact ⟨heq, hts.1, hts.2⟩
    exact this ▸ htmem
  · intro h
    exact List.mem_map.mpr ⟨(x, rdfType, Node.ref r),
      List.mem_filter.mpr ⟨h, by simp⟩, rfl⟩

theorem Graph.mem_subjectsByType_none {g : Graph} {x : String} :
    x ∈ g.subjectsByType none ↔ ∃ o, (x, rdfType, o) ∈ g.triples := by
  rw [Graph.subjectsByType, mem_dedupF]
  constructor
  · intro h
    rcases List.mem_map.mp h with ⟨t, ht, heq⟩
    rcases List.mem_filter.mp ht with ⟨htmem, hts⟩
    simp only [Bool.and_eq_true, decide_eq_true_eq] at hts
    refine ⟨t.2.2, ?_⟩
    have : t = (x, rdfType, t.2.2) := by
      rcases t with ⟨a, b, c⟩
      simp only [Prod.mk.injEq, and_true]
      exact ⟨heq, hts.1⟩
    exact this ▸ htmem
  · rintro ⟨o, h⟩
    exact List.mem_map.mpr ⟨(x, rdfType, o), List.mem_filter.mpr ⟨h, by simp⟩, rfl⟩

theorem nodup_subjectsByType (g : Graph) (o : Option String) :
    (g.subjectsByType o).Nodup :=
  nodup_dedupF _

theorem lookupA_nil {k : String} : lookupA [] k = none := rfl

theorem lookupA_cons {k k' : String} {v : AttrVal} {rest : List (String × AttrVal)} :
    lookupA ((k', v) :: rest) k = if k' = k then some v else lookupA rest k := by
  by_cases h : k' = k <;> simp [lookupA, List.find?_cons, h]

theorem lookupA_eq_none_iff {attrs : List (String × AttrVal)} {k : String} :
    lookupA attrs k = none ↔ k ∉ keysA attrs := by
  induction attrs with
  | nil => simp [lookupA_nil, keysA]
  | cons he rest ih =>
    rcases he with ⟨k', v⟩
    by_cases h : k' = k
    · subst h; simp [lookupA_cons, keysA]
    · simp [lookupA_cons, h, keysA, ih]
      intro hk; exact fun heq => h heq.symm

theorem lookupA_append_left {attrs l : List (String × AttrVal)} {k : String} {v : AttrVal}
    (h : lookupA attrs k = some v) : lookupA (attrs ++ l) k = some v := by
  induction attrs with
  | nil => simp [lookupA_nil] at h
  | cons he rest ih =>
    rcases he with ⟨k', v'⟩
    by_cases hk : k' = k
    · subst hk
      rw [lookupA_cons, if_pos rfl] at h
      rw [List.cons_append, lookupA_cons, if_pos rfl, h]
    · rw [lookupA_cons, if_neg hk] at h
      rw [List.cons_append, lookupA_cons, if_neg hk]
      exact ih h

theorem lookupA_append_right {attrs l : List (String × AttrVal)} {k : String}
    (h : k ∉ keysA attrs) : lookupA (attrs ++ l) k = lookupA l k := by
  induction attrs with
  | nil => simp
  | cons he rest ih =>
    rcases he with ⟨k', v'⟩
    simp only [keysA, List.map_cons, List.mem_cons, not_or] at h
    rw [List.cons_append, lookupA_cons, if_neg (fun he => h.1 he.symm)]
    exact ih (by simpa [keysA] using h.2)

theorem setA_of_not_mem {attrs : List (String × AttrVal)} {k : String} {v : AttrVal}
    (h : k ∉ keysA attrs) : setA attrs k v = attrs ++ [(k, v)] := by
  induction attrs with
  | nil => rfl
  | cons he rest ih =>
    rcases he with ⟨k', v'⟩
    simp only [keysA, List.map_cons, List.mem_cons, not_or] at h
    rw [setA, if_neg (fun he => h.1 he.symm)]
    exact congrArg (List.cons (k', v')) (ih (by simpa [keysA] using h.2))

theorem setA_append_key {attrs : List (String × AttrVal)} {k : String} {v v' : AttrVal}
    (h : k ∉ keysA attrs) :
    setA (attrs ++ [(k, v)]) k v' = attrs ++ [(k, v')] := by
  induction attrs with
  | nil => simp [setA]
  | cons he rest ih =>
    rcases he with ⟨k'', v''⟩
    simp only [keysA, List.map_cons, List.mem_cons, not_or] at h
    rw [List.cons_append, setA, if_neg (fun he => h.1 he.symm)]
    exact congrArg (List.cons (k'', v'')) (ih (by simpa [keysA] using h.2))

/-! ## Claims -/

theorem describer_add_list_eq_foldl (subj : String) (info : FieldInfo) :
    ∀ (items : List Value) (g : Graph),
      describer_add_list g subj items info =
        items.foldl (fun h v => describer_add_value h subj v info) g
  | [], g => rfl
  | v :: rest, g => by
    rw [describer_add_list, List.foldl_cons]
    exact describer_add_list_eq_foldl subj info rest _

/-- C5: value emitter case analysis — a null value emits no triple; a
non-text collection emits per element, recursively; a scalar emits
exactly one triple, a reference edge when the field's value kind is the
relation marker and a literal carrying the declared datatype tag
otherwise. -/
theorem describer_add_value_cases (g : Graph) (subj : String) (info : FieldInfo) :
    describer_add_value g subj Value.vnone info = g ∧
    (∀ items, describer_add_value g subj (Value.vlist items) info =
      items.foldl (fun h v => describer_add_value h subj v info) g) ∧
    (∀ s, info.range = RangeKind.idref →
      describer_add_value g subj (Value.vstr s) info =
        g.add (subj, info.ref, Node.ref s)) ∧
    (∀ s dt, info.range = RangeKind.dtype dt →
      describer_add_value g subj (Value.vstr s) info =
        g.add (subj, info.ref, Node.lit s dt)) := by
  refine ⟨rfl, fun items => describer_add_list_eq_foldl subj info items g, ?_, ?_⟩
  · intro s h
    rw [describer_add_value, scalarTriple, nodeOf, h]
  · intro s dt h
    rw [describer_add_value, scalarTriple, nodeOf, h]

/-- Witness for C5 at concrete inputs. -/
theorem describer_add_value_cases_witness :
    describer_add_value ⟨[]⟩ "ex:a" (Value.vstr "ex:b")
        { ref := "ex:knows", range := RangeKind.idref, repeatable := true } =
      Graph.add ⟨[]⟩ ("ex:a", "ex:knows", Node.ref "ex:b") :=
  (describer_add_value_cases ⟨[]⟩ "ex:a"
    { ref := "ex:knows", range := RangeKind.idref, repeatable := true }).2.2.1 "ex:b" rfl

/-- C4: schema-agnostic fold — `rdf:type` statements are skipped; the
first occurrence of a predicate stores the value directly under the raw
predicate key, a second occurrence turns the stored value into the
two-element sequence first-then-second, and every further occurrence
appends to the sequence. -/
theorem update_attrs_schemaless_grouping (pred : String) (v : Node)
    (attrs : List (String × AttrVal)) :
    update_attrs_from_stmt rdfType v attrs none = Except.ok attrs ∧
    (pred ≠ rdfType → lookupA attrs pred = none →
      update_attrs_from_stmt pred v attrs none =
        Except.ok (attrs ++ [(pred, AttrVal.single v)])) ∧
    (pred ≠ rdfType → ∀ x, lookupA attrs pred = some (AttrVal.single x) →
      update_attrs_from_stmt pred v attrs none =
        Except.ok (setA attrs pred (AttrVal.many [x, v]))) ∧
    (pred ≠ rdfType → ∀ l, lookupA attrs pred = some (AttrVal.many l) →
      update_attrs_from_stmt pred v attrs none =
        Except.ok (setA attrs pred (AttrVal.many (l ++ [v])))) := by
  refine ⟨by rw [update_attrs_from_stmt, if_pos rfl], ?_, ?_, ?_⟩
  · intro hne habs
    rw [update_attrs_from_stmt, if_neg hne, habs,
      setA_of_not_mem (lookupA_eq_none_iff.mp habs)]
  · intro hne x hx
    rw [update_attrs_from_stmt, if_neg hne, hx]
  · intro hne l hl
    rw [update_attrs_from_stmt, if_neg hne, hl]

/-- Witness for C4 at concrete inputs. -/
theorem update_attrs_schemaless_grouping_witness :
    update_attrs_from_stmt "ex:p" (Node.ref "ex:b")
        [("ex:p", AttrVal.single (Node.ref "ex:a"))] none =
      Except.ok (setA [("ex:p", AttrVal.single (Node.ref "ex:a"))] "ex:p"
        (AttrVal.many [Node.ref "ex:a", Node.ref "ex:b"])) :=
  (update_attrs_schemaless_grouping "ex:p" (Node.ref "ex:b")
      [("ex:p", AttrVal.single (Node.ref "ex:a"))]).2.2.1
    (by decide) (Node.ref "ex:a") rfl

/-- C3: schema-aware fold cardinality contract — a repeatable field
accumulates an ordered sequence even on its first (single) occurrence
and keeps appending on later ones; a non-repeatable field stores its
first value directly, without coercion to a list, and the fold raises
the cardinality-violation error (`AnnotationError`) exactly when a
second value arrives for it. -/
theorem update_attrs_schema_cardinality (sc : Schema) (pred name : String)
    (info : FieldInfo) (hmap : sc.ref_mapping pred = some (name, info))
    (hpred : pred ≠ rdfType) (attrs : List (String × AttrVal)) (v : Node) :
    (info.repeatable = true → lookupA attrs name = none →
      update_attrs_from_stmt pred v attrs (some sc) =
        Except.ok (attrs ++ [(name, AttrVal.many [v])])) ∧
    (info.repeatable = true → ∀ l, lookupA attrs name = some (AttrVal.many l) →
      update_attrs_from_stmt pred v attrs (some sc) =
        Except.ok (setA attrs name (AttrVal.many (l ++ [v])))) ∧
    (info.repeatable = false → lookupA attrs name = none →
      update_attrs_from_stmt pred v attrs (some sc) =
        Except.ok (attrs ++ [(name, AttrVal.single v)])) ∧
    (info.repeatable = false →
      ((∃ m, update_attrs_from_stmt pred v attrs (some sc) =
          Except.error (PyErr.annotationError m)) ↔ (lookupA attrs name).isSome = true)) := by
  refine ⟨?_, ?_, ?_, ?_⟩
  · intro hrep habs
    simp [update_attrs_from_stmt, if_neg hpred, hmap, hrep, habs,
      setA_of_not_mem (lookupA_eq_none_iff.mp habs)]
  · intro hrep l hl
    simp [update_attrs_from_stmt, if_neg hpred, hmap, hrep, hl]
  · intro hrep habs
    simp [update_attrs_from_stmt, if_neg hpred, hmap, hrep, habs,
      setA_of_not_mem (lookupA_eq_none_iff.mp habs)]
  · intro hrep
    simp only [update_attrs_from_stmt, if_neg hpred, hmap, hrep, Bool.false_eq_true,
      if_false]
    constructor
    · rintro ⟨m, hm⟩
      cases hlook : lookupA attrs name with
      | none => rw [hlook] at hm; cases hm
      | some x => simp
    · intro hsome
      rcases Option.isSome_iff_exists.mp hsome with ⟨x, hx⟩
      rw [hx]
      exact ⟨_, rfl⟩

/-- Witness for C3 at concrete inputs: a single occurrence of the
repeatable `friends` field becomes a one-element sequence. -/
theorem update_attrs_schema_cardinality_witness :
    update_attrs_from_stmt "ex:knows" (Node.ref "ex:bob") [] (some scPerson) =
      Except.ok [("friends", AttrVal.many [Node.ref "ex:bob"])] := by
  have h := (update_attrs_schema_cardinality scPerson "ex:knows" "friends"
    { ref := "ex:knows", range := RangeKind.idref, repeatable := true }
    (by decide) (by decide) [] (Node.ref "ex:bob")).1 rfl rfl
  simpa using h

/-- C2: subject resolution case analysis — a (truthy) identifier alone
resolves to the singleton set when it is a subject and fails with the
not-found error otherwise; a schema alone resolves to the possibly
empty set of subjects typed with its entity type; with neither, all
distinct subjects carrying any `rdf:type` are returned. -/
theorem get_subjects_case_analysis (g : Graph) (i : String) (hi : i ≠ "") (sc : Schema) :
    ((∃ t ∈ g.triples, t.1 = i) →
      (get_subjects g (some i) none).2 = Except.ok [i]) ∧
    (¬ (∃ t ∈ g.triples, t.1 = i) →
      (get_subjects g (some i) none).2 =
        Except.error (PyErr.valueError ("Identifier: " ++ i ++ " not in graph"))) ∧
    ((get_subjects g none (some sc)).2 =
        Except.ok (g.subjectsByType (some sc.rdf_resource)) ∧
      (g.subjectsByType (some sc.rdf_resource)).Nodup ∧
      ∀ x, x ∈ g.subjectsByType (some sc.rdf_resource) ↔
        (x, rdfType, Node.ref sc.rdf_resource) ∈ g.triples) ∧
    ((get_subjects g none none).2 = Except.ok (g.subjectsByType none) ∧
      (g.subjectsByType none).Nodup ∧
      ∀ x, x ∈ g.subjectsByType none ↔ ∃ o, (x, rdfType, o) ∈ g.triples) := by
  refine ⟨?_, ?_, ⟨rfl, nodup_subjectsByType g _, fun x => Graph.mem_subjectsByType_some⟩,
    ⟨rfl, nodup_subjectsByType g _, fun x => Graph.mem_subjectsByType_none⟩⟩
  · intro h
    have hs : g.hasSubject i = true := Graph.hasSubject_iff.mpr h
    simp [get_subjects, hi, hs, make_ref]
  · intro h
    have hs : ¬ (g.hasSubject i = true) := fun hc => h (Graph.hasSubject_iff.mp hc)
    simp [get_subjects, hi, hs, make_ref]

/-- Witness for C2 at concrete inputs. -/
theorem get_subjects_case_analysis_witness :
    (get_subjects gWrongType (some "ex:alice") none).2 = Except.ok ["ex:alice"] :=
  (get_subjects_case_analysis gWrongType "ex:alice" (by decide) scPerson).1 (by decide)

/-- C8 counterexample: the not-found failure and the type-mismatch
failure of subject resolution raise the same error kind (`ValueError`,
lines 71 and 76 of `graph.py`), refuting that the type-mismatch error
is a distinct error kind; the two are told apart by message only. -/
theorem get_subjects_error_kind_cex :
    (get_subjects gNotIn (some "ex:alice") (some scPerson)).2 =
      Except.error (PyErr.valueError "Identifier: ex:alice not in graph") ∧
    (get_subjects gWrongType (some "ex:alice") (some scPerson)).2 =
      Except.error (PyErr.valueError
        "Object identified by id: ex:alice is not of type: ex:Person in graph") ∧
    PyErr.kind (PyErr.valueError "Identifier: ex:alice not in graph") =
      PyErr.kind (PyErr.valueError
        "Object identified by id: ex:alice is not of type: ex:Person in graph") := by
  exact ⟨rfl, rfl, rfl⟩

/-- C8 amended: when the identifier is a subject of the graph but the
`(identifier, rdf:type, schema.entityType)` triple is absent,
resolution fails with a `ValueError` reporting the type mismatch — the
same error kind (`ValueError`) as the not-found failure, the two cases
being distinguished by their messages, not by exception type. -/
theorem get_subjects_type_mismatch_message (g : Graph) (i : String) (hi : i ≠ "")
    (sc : Schema) (hsub : g.hasSubject i = true)
    (htype : g.hasTriple (i, rdfType, Node.ref sc.rdf_resource) = false) :
    (get_subjects g (some i) (some sc)).2 =
      Except.error (PyErr.valueError
        ("Object identified by id: " ++ i ++ " is not of type: " ++
          sc.rdf_resource ++ " in graph")) ∧
    PyErr.kind (PyErr.valueError
        ("Object identified by id: " ++ i ++ " is not of type: " ++
          sc.rdf_resource ++ " in graph")) =
      PyErr.kind (PyErr.valueError ("Identifier: " ++ i ++ " not in graph")) := by
  refine ⟨?_, rfl⟩
  simp [get_subjects, hi, hsub, htype, make_ref]

/-- Witness for C8's amended theorem at concrete inputs. -/
theorem get_subjects_type_mismatch_message_witness :
    (get_subjects gWrongType (some "ex:alice") (some scPerson)).2 =
      Except.error (PyErr.valueError
        "Object identified by id: ex:alice is not of type: ex:Person in graph") := by
  have h := (get_subjects_type_mismatch_message gWrongType "ex:alice" (by decide)
    scPerson (by decide) (by decide)).1
  simpa using h

/-- C10: a falsy identifier (the empty string) passed to the subject
resolver or to `to_builtin` behaves exactly as an absent identifier —
subjects are resolved by `rdf:type` instead of a not-found error being
raised — because `if identifier:` tests truthiness, not `None`-ness. -/
theorem falsy_identifier_as_absent (g : Graph) (sc : Option Schema) :
    get_subjects g (some "") sc = get_subjects g none sc ∧
    to_builtin g (some "") sc = to_builtin g none sc := by
  have h1 : get_subjects g (some "") sc = get_subjects g none sc := by
    simp [get_subjects]
  exact ⟨h1, by simp only [to_builtin, h1]⟩

theorem get_subjects_fst (g : Graph) (identifier : Option String)
    (schema : Option Schema) : (get_subjects g identifier schema).1 = g := by
  unfold get_subjects
  rcases identifier with _ | i
  · rfl
  · dsimp only
    split
    · rfl
    · split
      · rfl
      · rcases schema with _ | sc
        · rfl
        · dsimp only
          split <;> rfl

theorem to_builtin_fst (g : Graph) (identifier : Option String)
    (schema : Option Schema) : (to_builtin g identifier schema).1 = g := by
  have h := get_subjects_fst g identifier schema
  rw [to_builtin]
  rcases hg : get_subjects g identifier schema with ⟨g1, r⟩
  rw [hg] at h
  dsimp only at h
  rcases r with e | pool
  · dsimp only; exact h
  · dsimp only
    rcases hit : to_builtin_items g1 schema pool with e | items <;> simp [hit, h]

theorem sub_graph_fst (g : Graph) (i : String) : (sub_graph g i).1 = g := by
  rw [sub_graph]
  split <;> rfl

theorem to_struct_fst (g : Graph) (i : String) (mc : Schema) (schema : Option Schema) :
    (to_struct g i mc schema).1 = g := by
  have h := to_builtin_fst g (some i) (some (schema.getD mc))
  rw [to_struct]
  rcases hb : to_builtin g (some i) (some (schema.getD mc)) with ⟨g1, r⟩
  rw [hb] at h
  dsimp only at h
  rcases r with e | items
  · dsimp only; exact h
  · rcases items with _ | ⟨item, rest⟩ <;> dsimp only <;> exact h

/-- C9: decoding is mutation-free — `to_builtin`, `to_struct` and
`sub_graph` leave the input graph's triple set unchanged, whether they
return normally or raise (the first component of each operation is the
state of the input graph when the call ends). -/
theorem decode_ops_preserve_graph (g : Graph) (identifier : Option String)
    (i2 : String) (mc : Schema) (schema : Option Schema) :
    (to_builtin g identifier schema).1 = g ∧
    (sub_graph g i2).1 = g ∧
    (to_struct g i2 mc schema).1 = g :=
  ⟨to_builtin_fst g identifier schema, sub_graph_fst g i2,
    to_struct_fst g i2 mc schema⟩

theorem Graph.mem_add {g : Graph} {u t : Triple} :
    t ∈ (g.add u).triples ↔ t ∈ g.triples ∨ t = u := by
  rw [Graph.add]
  split
  · constructor
    · exact Or.inl
    · rintro (h | rfl)
      · exact h
      · assumption
  · simp

theorem fold_add_pairs (i : String) :
    ∀ (pairs : List (String × Node)) (acc : Graph), pairs.Nodup →
      (∀ po ∈ pairs, (i, po.1, po.2) ∉ acc.triples) →
      pairs.foldl (fun (s : Graph) po => s.add (i, po.1, po.2)) acc =
        ⟨acc.triples ++ pairs.map (fun po => (i, po.1, po.2))⟩
  | [], acc, _, _ => by simp
  | po :: rest, acc, hnd, hfresh => by
    rw [List.foldl_cons, Graph.add,
      if_neg (hfresh po (List.mem_cons_self po rest))]
    rw [fold_add_pairs i rest ⟨acc.triples ++ [(i, po.1, po.2)]⟩
      (List.nodup_cons.mp hnd).2 ?_]
    · simp
    · intro qo hqo hmem
      rcases List.mem_append.mp hmem with h | h
      · exact hfresh qo (List.mem_cons_of_mem po hqo) h
      · have : qo = po := by
          rcases List.mem_singleton.mp h with heq
          rcases qo with ⟨q1, q2⟩; rcases po with ⟨p1, p2⟩
          simp only [Prod.mk.injEq] at heq
          simp [heq.2.1, heq.2.2]
        exact (List.nodup_cons.mp hnd).1 (this ▸ hqo)

/-- C7: subgraph extraction — when the identifier is not a subject the
operation fails; otherwise it returns a fresh graph holding exactly one
triple `(identifier, predicate, object)` per distinct
`(predicate, object)` pair of that subject, deduplicated by full triple
identity. -/
theorem sub_graph_spec (g : Graph) (i : String) :
    (g.hasSubject i = false →
      (sub_graph g i).2 =
        Except.error (PyErr.valueError ("Identifier " ++ i ++ " not present in graph"))) ∧
    (g.hasSubject i = true →
      ∃ sub, (sub_graph g i).2 = Except.ok sub ∧ sub.triples.Nodup ∧
        ∀ t : Triple, t ∈ sub.triples ↔ (t.1 = i ∧ t ∈ g.triples)) := by
  constructor
  · intro h
    simp [sub_graph, make_ref, h]
  · intro h
    have hpairs :
        (g.predicateObjects i).foldl (fun (s : Graph) po => s.add (i, po.1, po.2)) ⟨[]⟩ =
          ⟨(g.predicateObjects i).map (fun po => (i, po.1, po.2))⟩ := by
      have := fold_add_pairs i (g.predicateObjects i) ⟨[]⟩
        (Graph.nodup_predicateObjects g i) (by simp)
      simpa using this
    refine ⟨⟨(g.predicateObjects i).map (fun po => (i, po.1, po.2))⟩, ?_, ?_, ?_⟩
    · simp [sub_graph, make_ref, h, hpairs]
    · refine List.Nodup.map ?_ (Graph.nodup_predicateObjects g i)
      intro a b hab
      rcases a with ⟨a1, a2⟩; rcases b with ⟨b1, b2⟩
      simp only [Prod.mk.injEq] at hab
      simp [hab.2.1, hab.2.2]
    · intro t
      constructor
      · intro ht
        rcases List.mem_map.mp ht with ⟨po, hpo, heq⟩
        subst heq
        exact ⟨rfl, Graph.mem_predicateObjects.mp (by simpa using hpo)⟩
      · rintro ⟨h1, h2⟩
        refine List.mem_map.mpr ⟨(t.2.1, t.2.2), ?_, ?_⟩
        · exact Graph.mem_predicateObjects.mpr (by
            rcases t with ⟨t1, t2, t3⟩
            simpa [h1.symm] using h2)
        · rcases t with ⟨t1, t2, t3⟩
          simp only [Prod.mk.injEq, and_true]
          exact h1.symm

/-- Witness for C7 at concrete inputs. -/
theorem sub_graph_spec_witness :
    ∃ sub, (sub_graph gWrongType "ex:alice").2 = Except.ok sub ∧
      sub.triples.Nodup ∧
      ∀ t : Triple, t ∈ sub.triples ↔ (t.1 = "ex:alice" ∧ t ∈ gWrongType.triples) :=
  (sub_graph_spec gWrongType "ex:alice").2 (by decide)

mutual
theorem mem_describer_add_value (subj : String) (info : FieldInfo) :
    ∀ (v : Value) (g : Graph) (t : Triple),
      t ∈ (describer_add_value g subj v info).triples → t ∈ g.triples ∨ t.1 = subj
  | Value.vnone, g, t, h => Or.inl h
  | Value.vstr s, g, t, h => by
    rw [describer_add_value] at h
    rcases Graph.mem_add.mp h with h1 | rfl
    · exact Or.inl h1
    · exact Or.inr rfl
  | Value.vlist items, g, t, h =>
    mem_describer_add_list subj info items g t h

theorem mem_describer_add_list (subj : String) (info : FieldInfo) :
    ∀ (items : List Value) (g : Graph) (t : Triple),
      t ∈ (describer_add_list g subj items info).triples → t ∈ g.triples ∨ t.1 = subj
  | [], g, t, h => Or.inl h
  | v :: rest, g, t, h => by
    rcases mem_describer_add_list subj info rest (describer_add_value g subj v info) t h with
      h1 | h1
    · exact mem_describer_add_value subj info v g t h1
    · exact Or.inr h1
end

theorem mem_emit_fields (subj : String) (r : StructRec) :
    ∀ (fields : List (String × FieldInfo)) (g g' : Graph),
      emit_fields subj r fields g = Except.ok g' →
      ∀ t ∈ g'.triples, t ∈ g.triples ∨ t.1 = subj
  | [], g, g', h, t, ht => by
    rw [emit_fields] at h
    cases h
    exact Or.inl ht
  | (name, info) :: rest, g, g', h, t, ht => by
    rw [emit_fields] at h
    cases hget : get_key_or_attribute name r with
    | none => rw [hget] at h; cases h
    | some v =>
      rw [hget] at h
      rcases mem_emit_fields subj r rest (describer_add_value g subj v info) g' h t ht with
        h1 | h1
      · exact mem_describer_add_value subj info v g t h1
      · exact Or.inr h1

/-- C6: identifier precedence on encode — when a record exposes both
accepted identifier spellings with different values, every triple the
encode adds has the primary `ID` spelling's value as its subject; a
record exposing neither spelling (with the schema validation passing,
so the failure is the identifier check) makes `from_struct` fail with
the hard `ValueError`, whatever its field values, with the target graph
still in its initial state — so before any field triple is emitted. -/
theorem from_struct_identifier_precedence (r : StructRec) (sc : Schema)
    (g0 : Option Graph) (a b : String)
    (hA : get_key_or_attribute "ID" r = some (Value.vstr a))
    (_hb : get_key_or_attribute "id" r = some (Value.vstr b)) (_hab : a ≠ b) :
    (∀ g', from_struct r (some sc) g0 = Except.ok g' →
      ∀ t ∈ g'.triples, t ∈ (g0.getD ⟨[]⟩).triples ∨ t.1 = a) ∧
    (∀ r' : StructRec, validate_schema r' sc = Except.ok () →
      (get_key_or_attribute "ID" r' = none ∨
        get_key_or_attribute "ID" r' = some Value.vnone) →
      (get_key_or_attribute "id" r' = none ∨
        get_key_or_attribute "id" r' = some Value.vnone) →
      from_struct r' (some sc) g0 =
        Except.error
          (PyErr.valueError "Missing ID/id field in object in from_struct operation",
            g0.getD ⟨[]⟩)) := by
  constructor
  · intro g' hok t ht
    rw [from_struct] at hok
    cases hval : validate_schema r sc with
    | error e => rw [hval] at hok; cases hok
    | ok u =>
      cases u
      rw [hval] at hok
      dsimp only [Except.map] at hok
      have hpres : keyPresentNonNone "ID" r = true := by
        simp [keyPresentNonNone, hA]
      have hid : extract_id r = Except.ok (Value.vstr a) := by
        rw [extract_id, if_pos hpres, hA]; rfl
      rw [hid] at hok
      dsimp only [Value.toSubj] at hok
      rcases mem_emit_fields a r sc.name_mapping _ g' hok t ht with h1 | h1
      · rcases Graph.mem_add.mp h1 with h2 | rfl
        · exact Or.inl h2
        · exact Or.inr rfl
      · exact Or.inr h1
  · intro r' hval hA' hb'
    rw [from_struct, hval]
    dsimp only [Except.map]
    have hpA : keyPresentNonNone "ID" r' = false := by
      rcases hA' with h | h <;> simp [keyPresentNonNone, h]
    have hpb : keyPresentNonNone "id" r' = false := by
      rcases hb' with h | h <;> simp [keyPresentNonNone, h]
    have hid : extract_id r' =
        Except.error (PyErr.valueError "Missing ID/id field in object in from_struct operation") := by
      rw [extract_id, if_neg (by simp [hpA]), if_neg (by simp [hpb])]
    rw [hid]

/-- Witness for C6 at concrete inputs: a record exposing neither `ID`
nor `id` fails with the hard error and an untouched (empty) target. -/
theorem from_struct_identifier_precedence_witness :
    from_struct rNoId (some scPerson) none =
      Except.error
        (PyErr.valueError "Missing ID/id field in object in from_struct operation",
          Option.getD none (⟨[]⟩ : Graph)) :=
  (from_struct_identifier_precedence rBothIds scPerson none "ex:primary" "ex:fallback"
    (by decide) (by decide) (by decide)).2 rNoId rfl
    (Or.inl (by decide)) (Or.inl (by decide))

/-- C1 counterexample: `rDup` conforms to `scPerson` (its repeatable
`friends` field holds a sequence) and exposes identifier `ex:alice`,
yet decoding the subgraph of its encoding yields a record whose
`friends` differs from `rDup`'s — the graph's set semantics collapse
the duplicated value, so the round-trip does not hold for every
conforming record. -/
theorem from_struct_to_struct_duplicate_cex :
    conformsTo rDup scPerson = true ∧
    extract_id rDup = Except.ok (Value.vstr "ex:alice") ∧
    from_struct rDup (some scPerson) none = Except.ok gDup ∧
    (sub_graph gDup "ex:alice").2 = Except.ok subDup ∧
    (to_struct subDup "ex:alice" scPerson (some scPerson)).2 = Except.ok decDup ∧
    get_key_or_attribute "friends" rDup =
      some (Value.vlist [Value.vstr "ex:bob", Value.vstr "ex:bob"]) ∧
    get_key_or_attribute "friends" decDup = some (Value.vlist [Value.vstr "ex:bob"]) ∧
    get_key_or_attribute "friends" decDup ≠ get_key_or_attribute "friends" rDup := by
  refine ⟨rfl, rfl, rfl, rfl, rfl, rfl, rfl, ?_⟩
  decide

theorem strsOf_map_vstr :
    ∀ l : List Value, isStrList l = true → (strsOf l).map Value.vstr = l
  | [], _ => rfl
  | Value.vstr s :: rest, h => by
    have hr : isStrList rest = true := h
    simp only [strsOf, List.filterMap_cons, List.map_cons]
    exact congrArg (List.cons (Value.vstr s)) (strsOf_map_vstr rest hr)

theorem strsOf_nodup : ∀ l : List Value, isStrList l = true → l.Nodup → (strsOf l).Nodup
  | [], _, _ => List.nodup_nil
  | Value.vstr s :: rest, h, hnd => by
    have hr : isStrList rest = true := h
    simp only [strsOf, List.filterMap_cons]
    refine List.nodup_cons.mpr ⟨fun hmem => ?_, strsOf_nodup rest hr (List.nodup_cons.mp hnd).2⟩
    have hm : Value.vstr s ∈ (strsOf rest).map Value.vstr :=
      List.mem_map.mpr ⟨s, hmem, rfl⟩
    rw [strsOf_map_vstr rest hr] at hm
    exact (List.nodup_cons.mp hnd).1 hm

theorem strsOf_ne_nil : ∀ l : List Value, isStrList l = true → l ≠ [] → strsOf l ≠ []
  | [], _, hne => absurd rfl hne
  | Value.vstr s :: rest, _, _ => by simp [strsOf]

theorem nodeOf_inj (info : FieldInfo) {a b : String} (h : nodeOf info a = nodeOf info b) :
    a = b := by
  rcases hr : info.range with _ | dt <;> rw [nodeOf, nodeOf, hr] at h <;>
    simpa using h

theorem nodeToB_nodeOf (info : FieldInfo) (s : String) : nodeToB (nodeOf info s) = s := by
  rcases hr : info.range with _ | dt <;> rw [nodeOf, hr] <;> rfl

theorem mem_fieldTriples {subj : String} {info : FieldInfo} {v : Value} {t : Triple}
    (h : t ∈ fieldTriples subj info v) : t.1 = subj ∧ t.2.1 = info.ref := by
  rcases v with _ | s | l
  · cases h
  · rw [fieldTriples, List.mem_singleton] at h
    subst h; exact ⟨rfl, rfl⟩
  · rw [fieldTriples] at h
    rcases List.mem_map.mp h with ⟨s, _, heq⟩
    subst heq; exact ⟨rfl, rfl⟩

theorem nodup_fieldTriples (subj : String) (info : FieldInfo) (v : Value)
    (hstrict : ∀ l, v = Value.vlist l → isStrList l = true ∧ l.Nodup) :
    (fieldTriples subj info v).Nodup := by
  rcases v with _ | s | l
  · exact List.nodup_nil
  · simp [fieldTriples]
  · rw [fieldTriples]
    rcases hstrict l rfl with ⟨hstr, hnd⟩
    refine List.Nodup.map ?_ (strsOf_nodup l hstr hnd)
    intro a b hab
    rw [scalarTriple, scalarTriple] at hab
    simp only [Prod.mk.injEq] at hab
    exact nodeOf_inj info hab.2.2

theorem describer_add_list_strs (subj : String) (info : FieldInfo) :
    ∀ (l : List Value) (g : Graph), isStrList l = true →
      ((strsOf l).map (scalarTriple subj info)).Nodup →
      (∀ t ∈ (strsOf l).map (scalarTriple subj info), t ∉ g.triples) →
      describer_add_list g subj l info =
        ⟨g.triples ++ (strsOf l).map (scalarTriple subj info)⟩
  | [], g, _, _, _ => by simp [describer_add_list, strsOf]
  | Value.vnone :: rest, _, h, _, _ => by cases h
  | Value.vlist _ :: rest, _, h, _, _ => by cases h
  | Value.vstr s :: rest, g, h, hnd, hfresh => by
    have hr : isStrList rest = true := h
    have hstmts : strsOf (Value.vstr s :: rest) = s :: strsOf rest := rfl
    rw [hstmts, List.map_cons] at hnd hfresh
    rw [describer_add_list, describer_add_value, Graph.add,
      if_neg (hfresh (scalarTriple subj info s) (List.mem_cons_self _ _))]
    rw [describer_add_list_strs subj info rest ⟨g.triples ++ [scalarTriple subj info s]⟩ hr
      (List.nodup_cons.mp hnd).2 ?_]
    · simp [hstmts]
    · intro t ht hmem
      rcases List.mem_append.mp hmem with h1 | h1
      · exact hfresh t (List.mem_cons_of_mem _ ht) h1
      · exact (List.nodup_cons.mp hnd).1 ((List.mem_singleton.mp h1) ▸ ht)

theorem describer_add_value_append (g : Graph) (subj : String) (info : FieldInfo)
    (v : Value) (hshape : shapeOKb info v = true)
    (hstrict : ∀ l, v = Value.vlist l → isStrList l = true ∧ l.Nodup)
    (hfresh : ∀ t ∈ fieldTriples subj info v, t ∉ g.triples) :
    describer_add_value g subj v info = ⟨g.triples ++ fieldTriples subj info v⟩ := by
  rcases v with _ | s | l
  · simp [describer_add_value, fieldTriples]
  · rw [describer_add_value, fieldTriples, Graph.add,
      if_neg (hfresh (scalarTriple subj info s) (List.mem_singleton.mpr rfl))]
  · rw [describer_add_value, fieldTriples]
    rcases hstrict l rfl with ⟨hstr, hnd⟩
    exact describer_add_list_strs subj info l g hstr
      (nodup_fieldTriples subj info (Value.vlist l) hstrict)
      (fun t ht => hfresh t ht)

theorem emit_fields_append (subj : String) (r : StructRec) :
    ∀ (fields : List (String × FieldInfo)) (g : Graph),
      (∀ p ∈ fields, (get_key_or_attribute p.1 r).isSome = true) →
      (∀ p ∈ fields, shapeOKb p.2 (fieldValue r p.1) = true) →
      (∀ p ∈ fields, ∀ l, fieldValue r p.1 = Value.vlist l →
        isStrList l = true ∧ l.Nodup) →
      ((fields.map (fun p => fieldTriples subj p.2 (fieldValue r p.1))).flatten).Nodup →
      (∀ t ∈ (fields.map (fun p => fieldTriples subj p.2 (fieldValue r p.1))).flatten,
        t ∉ g.triples) →
      emit_fields subj r fields g =
        Except.ok
          ⟨g.triples ++
            (fields.map (fun p => fieldTriples subj p.2 (fieldValue r p.1))).flatten⟩
  | [], g, _, _, _, _, _ => by simp [emit_fields]
  | (name, info) :: rest, g, hpres, hshape, hstrict, hnd, hfresh => by
    have hsome := hpres (name, info) (List.mem_cons_self _ _)
    rcases Option.isSome_iff_exists.mp hsome with ⟨v, hv⟩
    have hfv : fieldValue r name = v := by rw [fieldValue, hv]; rfl
    rw [List.map_cons, List.flatten_cons] at hnd hfresh
    rcases List.nodup_append.mp hnd with ⟨hnd1, hnd2, hdisj⟩
    rw [emit_fields, hv]
    show emit_fields subj r rest (describer_add_value g subj v info) = _
    rw [describer_add_value_append g subj info v (hfv ▸ hshape (name, info) (List.mem_cons_self _ _))
      (fun l hl => hstrict (name, info) (List.mem_cons_self _ _) l (hfv ▸ hl))
      (fun t ht => hfresh t (List.mem_append_left _ (hfv ▸ ht)))]
    rw [← hfv]
    rw [emit_fields_append subj r rest ⟨g.triples ++ fieldTriples subj info (fieldValue r name)⟩
      (fun p hp => hpres p (List.mem_cons_of_mem _ hp))
      (fun p hp => hshape p (List.mem_cons_of_mem _ hp))
      (fun p hp => hstrict p (List.mem_cons_of_mem _ hp))
      hnd2 ?_]
    · simp
    · intro t ht hmem
      rcases List.mem_append.mp hmem with h1 | h1
      · exact hfresh t (List.mem_append_right _ ht) h1
      · exact hdisj (hfv ▸ h1) ht

theorem wfSchema_names {sc : Schema} (h : wfSchema sc = true) :
    (sc.attrs.map Prod.fst).Nodup := by
  rw [wfSchema] at h
  simp only [Bool.and_eq_true, decide_eq_true_eq] at h
  exact h.1.1.1

theorem wfSchema_refs {sc : Schema} (h : wfSchema sc = true) :
    (sc.attrs.map (fun p => p.2.ref)).Nodup := by
  rw [wfSchema] at h
  simp only [Bool.and_eq_true, decide_eq_true_eq] at h
  exact h.1.1.2

theorem wfSchema_not_rdfType {sc : Schema} (h : wfSchema sc = true) :
    ∀ p ∈ sc.attrs, p.2.ref ≠ rdfType := by
  rw [wfSchema] at h
  simp only [Bool.and_eq_true, decide_eq_true_eq, List.all_eq_true] at h
  exact h.1.2

theorem wfSchema_id {sc : Schema} (h : wfSchema sc = true) :
    "id" ∉ sc.attrs.map Prod.fst := by
  rw [wfSchema] at h
  simp only [Bool.and_eq_true, decide_eq_true_eq] at h
  exact h.2

theorem conformsTo_spec {r : StructRec} {sc : Schema} (h : conformsTo r sc = true) :
    ∀ p ∈ sc.attrs, (get_key_or_attribute p.1 r).isSome = true ∧
      shapeOKb p.2 (fieldValue r p.1) = true := by
  rw [conformsTo, List.all_eq_true] at h
  intro p hp
  have hx := h p hp
  cases hv : get_key_or_attribute p.1 r with
  | none => rw [hv] at hx; cases hx
  | some v =>
    rw [hv] at hx
    exact ⟨rfl, by rw [fieldValue, hv]; exact hx⟩

theorem strictValues_spec {r : StructRec} {sc : Schema} (h : strictValues r sc = true) :
    ∀ p ∈ sc.attrs, ∀ l, fieldValue r p.1 = Value.vlist l → l ≠ [] ∧ l.Nodup := by
  rw [strictValues, List.all_eq_true] at h
  intro p hp l hl
  have hx := h p hp
  cases hv : get_key_or_attribute p.1 r with
  | none =>
    rw [fieldValue, hv] at hl
    cases hl
  | some v =>
    rw [fieldValue, hv] at hl
    rw [hv] at hx
    subst hl
    simp only [Bool.and_eq_true, Bool.not_eq_true', decide_eq_true_eq] at hx
    exact ⟨by simpa using hx.1, hx.2⟩

theorem strictValues_strs {r : StructRec} {sc : Schema} (hc : conformsTo r sc = true)
    (h : strictValues r sc = true) :
    ∀ p ∈ sc.attrs, ∀ l, fieldValue r p.1 = Value.vlist l →
      isStrList l = true ∧ l.Nodup := by
  intro p hp l hl
  rcases strictValues_spec h p hp l hl with ⟨_, hnd⟩
  have hshape := (conformsTo_spec hc p hp).2
  rw [hl, shapeOKb] at hshape
  simp only [Bool.and_eq_true] at hshape
  exact ⟨hshape.2, hnd⟩

theorem allTriples_subj (i : String) (r : StructRec) (sc : Schema) :
    ∀ t ∈ allTriples i r sc, t.1 = i := by
  intro t ht
  rw [allTriples] at ht
  rcases List.mem_cons.mp ht with rfl | ht'
  · rfl
  · rcases List.mem_flatten.mp ht' with ⟨l, hl, htl⟩
    rcases List.mem_map.mp hl with ⟨p, _, heq⟩
    subst heq
    exact (mem_fieldTriples htl).1

theorem allTriples_nodup (i : String) (r : StructRec) (sc : Schema)
    (hwf : wfSchema sc = true) (hconf : conformsTo r sc = true)
    (hstrict : strictValues r sc = true) :
    (allTriples i r sc).Nodup := by
  rw [allTriples]
  refine List.nodup_cons.mpr ⟨?_, ?_⟩
  · intro hmem
    rcases List.mem_flatten.mp hmem with ⟨l, hl, htl⟩
    rcases List.mem_map.mp hl with ⟨p, hp, heq⟩
    subst heq
    have := (mem_fieldTriples htl).2
    exact wfSchema_not_rdfType hwf p hp (by simpa using this.symm)
  · rw [List.nodup_flatten]
    constructor
    · intro l hl
      rcases List.mem_map.mp hl with ⟨p, hp, heq⟩
      subst heq
      exact nodup_fieldTriples i p.2 _ (strictValues_strs hconf hstrict p hp)
    · have hpw : sc.attrs.Pairwise (fun p q => p.2.ref ≠ q.2.ref) :=
        List.pairwise_map.mp (wfSchema_refs hwf)
      refine List.pairwise_map.mpr (hpw.imp ?_)
      intro p q hne t htp htq
      exact hne ((mem_fieldTriples htp).2.symm.trans (mem_fieldTriples htq).2)

theorem validate_of_conforms {r : StructRec} {sc : Schema}
    (hconf : conformsTo r sc = true) : validate_schema r sc = Except.ok () := by
  rw [validate_schema, if_pos]
  rw [List.all_eq_true]
  intro p hp
  exact (conformsTo_spec hconf p hp).1

/-- The graph `from_struct` builds for a conforming record on a fresh
graph is exactly `allTriples`. -/
theorem from_struct_encodes (sc : Schema) (r : StructRec) (i : String)
    (hwf : wfSchema sc = true) (hconf : conformsTo r sc = true)
    (hstrict : strictValues r sc = true)
    (hid : extract_id r = Except.ok (Value.vstr i)) :
    from_struct r (some sc) none = Except.ok ⟨allTriples i r sc⟩ := by
  have hnodup := allTriples_nodup i r sc hwf hconf hstrict
  rw [allTriples] at hnodup
  rcases List.nodup_cons.mp hnodup with ⟨hfreshT, hndF⟩
  rw [from_struct, validate_of_conforms hconf]
  dsimp only [Except.map]
  rw [hid]
  dsimp only [Value.toSubj]
  have hadd : Graph.add ⟨[]⟩ (i, rdfType, Node.ref sc.rdf_resource) =
      ⟨[(i, rdfType, Node.ref sc.rdf_resource)]⟩ := by
    rw [Graph.add, if_neg (by simp)]
    rfl
  show emit_fields i r sc.name_mapping
      (Graph.add ⟨[]⟩ (i, rdfType, Node.ref sc.rdf_resource)) = _
  rw [hadd]
  rw [emit_fields_append i r sc.name_mapping ⟨[(i, rdfType, Node.ref sc.rdf_resource)]⟩
    (fun p hp => (conformsTo_spec hconf p hp).1)
    (fun p hp => (conformsTo_spec hconf p hp).2)
    (fun p hp => strictValues_strs hconf hstrict p hp)
    hndF ?_]
  · rfl
  · intro t ht hmem
    exact hfreshT ((List.mem_singleton.mp hmem) ▸ ht)

theorem triple_proj_inj {i : String} {x y : Triple} (hx : x.1 = i) (hy : y.1 = i)
    (h : (x.2.1, x.2.2) = (y.2.1, y.2.2)) : x = y := by
  rcases x with ⟨x1, x2, x3⟩; rcases y with ⟨y1, y2, y3⟩
  simp only [Prod.mk.injEq] at h ⊢
  exact ⟨hx.trans hy.symm, h.1, h.2⟩

theorem predicateObjects_uniform {g : Graph} {i : String}
    (hsub : ∀ t ∈ g.triples, t.1 = i) (hnd : g.triples.Nodup) :
    g.predicateObjects i = g.triples.map (fun t => (t.2.1, t.2.2)) := by
  rw [Graph.predicateObjects]
  have hfil : g.triples.filter (fun t => decide (t.1 = i)) = g.triples :=
    List.filter_eq_self.mpr (fun t ht => by simpa using hsub t ht)
  rw [hfil]
  exact dedupF_eq_self _
    (hnd.map_on (fun x hx y hy hxy => triple_proj_inj (hsub x hx) (hsub y hy) hxy))

theorem sub_graph_uniform (g : Graph) (i : String) (hne : g.triples ≠ [])
    (hsub : ∀ t ∈ g.triples, t.1 = i) (hnd : g.triples.Nodup) :
    (sub_graph g i).2 = Except.ok ⟨g.triples⟩ := by
  have hhs : g.hasSubject i = true := by
    rcases List.exists_mem_of_ne_nil g.triples hne with ⟨t, ht⟩
    exact Graph.hasSubject_iff.mpr ⟨t, ht, hsub t ht⟩
  rw [sub_graph]
  simp only [make_ref]
  rw [if_neg (by simp [hhs]), predicateObjects_uniform hsub hnd]
  have hfold := fold_add_pairs i (g.triples.map (fun t => (t.2.1, t.2.2))) ⟨[]⟩
    ((hnd.map_on (fun x hx y hy hxy => triple_proj_inj (hsub x hx) (hsub y hy) hxy)))
    (by simp)
  rw [hfold]
  have hback : (g.triples.map (fun t => (t.2.1, t.2.2))).map
      (fun po => (i, po.1, po.2)) = g.triples := by
    rw [List.map_map]
    have : ∀ t ∈ g.triples, ((fun po => (i, po.1, po.2)) ∘
        (fun t => (t.2.1, t.2.2))) t = id t := by
      intro t ht
      rcases t with ⟨t1, t2, t3⟩
      have h1 : t1 = i := hsub (t1, t2, t3) ht
      simp [Function.comp, h1]
    rw [List.map_congr_left this, List.map_id]
  simp [hback]

theorem find_ref_aux :
    ∀ (l : List (String × FieldInfo)) (p : String × FieldInfo), p ∈ l →
      ((l.map (fun q => q.2.ref)).Nodup) →
      l.find? (fun q => decide (q.2.ref = p.2.ref)) = some p
  | [], p, hp, _ => absurd hp (List.not_mem_nil p)
  | q :: rest, p, hp, hnd => by
    rw [List.map_cons] at hnd
    rcases List.mem_cons.mp hp with rfl | hp'
    · rw [List.find?_cons]
      simp
    · have hq : q.2.ref ≠ p.2.ref := by
        intro he
        have hm : p.2.ref ∈ rest.map (fun q => q.2.ref) := List.mem_map.mpr ⟨p, hp', rfl⟩
        exact (List.nodup_cons.mp hnd).1 (he ▸ hm)
      rw [List.find?_cons]
      have : (decide (q.2.ref = p.2.ref)) = false := by simpa using hq
      rw [this]
      exact find_ref_aux rest p hp' (List.nodup_cons.mp hnd).2

theorem ref_mapping_self {sc : Schema} (hrefs : (sc.attrs.map (fun p => p.2.ref)).Nodup)
    {p : String × FieldInfo} (hp : p ∈ sc.attrs) :
    sc.ref_mapping p.2.ref = some p :=
  find_ref_aux sc.attrs p hp hrefs

theorem fold_stmts_append (sc? : Option Schema) :
    ∀ (l1 l2 : List (String × Node)) (attrs : List (String × AttrVal)),
      fold_stmts (l1 ++ l2) attrs sc? =
        (match fold_stmts l1 attrs sc? with
         | Except.error e => Except.error e
         | Except.ok a => fold_stmts l2 a sc?)
  | [], l2, attrs => rfl
  | (p, o) :: rest, l2, attrs => by
    rw [List.cons_append, fold_stmts, fold_stmts]
    cases update_attrs_from_stmt p o attrs sc? with
    | error e => rfl
    | ok a => exact fold_stmts_append sc? rest l2 a

theorem update_step_repeat_first {sc : Schema} {name : String} {info : FieldInfo}
    (hmap : sc.ref_mapping info.ref = some (name, info)) (hpred : info.ref ≠ rdfType)
    (hrep : info.repeatable = true) {attrs : List (String × AttrVal)}
    (habs : name ∉ keysA attrs) (v : Node) :
    update_attrs_from_stmt info.ref v attrs (some sc) =
      Except.ok (attrs ++ [(name, AttrVal.many [v])]) := by
  simp [update_attrs_from_stmt, if_neg hpred, hmap, hrep,
    lookupA_eq_none_iff.mpr habs, setA_of_not_mem habs]

theorem update_step_repeat_next {sc : Schema} {name : String} {info : FieldInfo}
    (hmap : sc.ref_mapping info.ref = some (name, info)) (hpred : info.ref ≠ rdfType)
    (hrep : info.repeatable = true) {attrs : List (String × AttrVal)}
    (habs : name ∉ keysA attrs) (acc : List Node) (v : Node) :
    update_attrs_from_stmt info.ref v (attrs ++ [(name, AttrVal.many acc)]) (some sc) =
      Except.ok (attrs ++ [(name, AttrVal.many (acc ++ [v]))]) := by
  have hlook : lookupA (attrs ++ [(name, AttrVal.many acc)]) name =
      some (AttrVal.many acc) := by
    rw [lookupA_append_right habs, lookupA_cons, if_pos rfl]
  simp [update_attrs_from_stmt, if_neg hpred, hmap, hrep, hlook, setA_append_key habs]

theorem update_step_single {sc : Schema} {name : String} {info : FieldInfo}
    (hmap : sc.ref_mapping info.ref = some (name, info)) (hpred : info.ref ≠ rdfType)
    (hrep : info.repeatable = false) {attrs : List (String × AttrVal)}
    (habs : name ∉ keysA attrs) (v : Node) :
    update_attrs_from_stmt info.ref v attrs (some sc) =
      Except.ok (attrs ++ [(name, AttrVal.single v)]) := by
  simp [update_attrs_from_stmt, if_neg hpred, hmap, hrep,
    lookupA_eq_none_iff.mpr habs, setA_of_not_mem habs]

theorem fold_stmts_many {sc : Schema} {name : String} {info : FieldInfo}
    (hmap : sc.ref_mapping info.ref = some (name, info)) (hpred : info.ref ≠ rdfType)
    (hrep : info.repeatable = true) :
    ∀ (ss : List String) (attrs : List (String × AttrVal)) (acc : List Node),
      name ∉ keysA attrs →
      fold_stmts (ss.map (fun s => (info.ref, nodeOf info s)))
        (attrs ++ [(name, AttrVal.many acc)]) (some sc) =
      Except.ok (attrs ++ [(name, AttrVal.many (acc ++ ss.map (nodeOf info)))])
  | [], attrs, acc, _ => by simp [fold_stmts]
  | s :: ss, attrs, acc, habs => by
    rw [List.map_cons, fold_stmts,
      update_step_repeat_next hmap hpred hrep habs acc (nodeOf info s)]
    show fold_stmts (ss.map (fun s => (info.ref, nodeOf info s)))
      (attrs ++ [(name, AttrVal.many (acc ++ [nodeOf info s]))]) (some sc) = _
    rw [fold_stmts_many hmap hpred hrep ss attrs (acc ++ [nodeOf info s]) habs]
    simp

theorem fold_stmts_field {sc : Schema} {name : String} {info : FieldInfo}
    (hmap : sc.ref_mapping info.ref = some (name, info)) (hpred : info.ref ≠ rdfType)
    (i : String) (v : Value) (hshape : shapeOKb info v = true)
    (attrs : List (String × AttrVal)) (habs : name ∉ keysA attrs) :
    fold_stmts ((fieldTriples i info v).map (fun t => (t.2.1, t.2.2))) attrs (some sc) =
      Except.ok (attrs ++ attrEntry name info v) := by
  rcases v with _ | s | l
  · simp [fieldTriples, fold_stmts, attrEntry]
  · have hrep : info.repeatable = false := by
      rw [shapeOKb] at hshape; simpa using hshape
    rw [fieldTriples, attrEntry]
    show fold_stmts [(info.ref, nodeOf info s)] attrs (some sc) = _
    rw [fold_stmts, update_step_single hmap hpred hrep habs (nodeOf info s)]
    rfl
  · rw [shapeOKb] at hshape
    simp only [Bool.and_eq_true] at hshape
    rw [fieldTriples, attrEntry, List.map_map]
    show fold_stmts ((strsOf l).map (fun s => (info.ref, nodeOf info s))) attrs (some sc) = _
    cases hss : strsOf l with
    | nil => simp [fold_stmts]
    | cons s ss =>
      rw [if_neg (by simp [hss])]
      rw [List.map_cons, fold_stmts,
        update_step_repeat_first hmap hpred hshape.1 habs (nodeOf info s)]
      show fold_stmts (ss.map (fun s => (info.ref, nodeOf info s)))
        (attrs ++ [(name, AttrVal.many [nodeOf info s])]) (some sc) = _
      have h := fold_stmts_many hmap hpred hshape.1 ss attrs [nodeOf info s] habs
      rw [h]
      simp

theorem keysA_attrEntry {name : String} {info : FieldInfo} {v : Value} {x : String}
    (hx : x ∈ keysA (attrEntry name info v)) : x = name := by
  rcases v with _ | s | l
  · cases hx
  · simpa [attrEntry, keysA] using hx
  · rw [attrEntry] at hx
    split at hx
    · cases hx
    · simpa [keysA] using hx

theorem fold_stmts_fields (sc : Schema) (r : StructRec) (i : String)
    (hrefs : (sc.attrs.map (fun p => p.2.ref)).Nodup)
    (hnrt : ∀ p ∈ sc.attrs, p.2.ref ≠ rdfType) :
    ∀ (fields : List (String × FieldInfo)) (attrs : List (String × AttrVal)),
      (∀ p ∈ fields, p ∈ sc.attrs) →
      (∀ p ∈ fields, shapeOKb p.2 (fieldValue r p.1) = true) →
      (fields.map Prod.fst).Nodup →
      (∀ p ∈ fields, p.1 ∉ keysA attrs) →
      fold_stmts
        ((fields.map (fun p => fieldTriples i p.2 (fieldValue r p.1))).flatten.map
          (fun t => (t.2.1, t.2.2))) attrs (some sc) =
      Except.ok (attrs ++ (fields.map (fun p => attrEntry p.1 p.2 (fieldValue r p.1))).flatten)
  | [], attrs, _, _, _, _ => by simp [fold_stmts]
  | p :: rest, attrs, hsc, hshape, hnames, habs => by
    rw [List.map_cons, List.flatten_cons, List.map_append, fold_stmts_append]
    have hmap : sc.ref_mapping p.2.ref = some p :=
      ref_mapping_self hrefs (hsc p (List.mem_cons_self _ _))
    have hfield := @fold_stmts_field sc p.1 p.2
      (by rcases p with ⟨n, inf⟩; exact hmap)
      (hnrt p (hsc p (List.mem_cons_self _ _)))
      i (fieldValue r p.1) (hshape p (List.mem_cons_self _ _)) attrs
      (habs p (List.mem_cons_self _ _))
    rw [hfield]
    show fold_stmts
        ((rest.map (fun p => fieldTriples i p.2 (fieldValue r p.1))).flatten.map
          (fun t => (t.2.1, t.2.2)))
        (attrs ++ attrEntry p.1 p.2 (fieldValue r p.1)) (some sc) = _
    have habs' : ∀ q ∈ rest, q.1 ∉ keysA (attrs ++ attrEntry p.1 p.2 (fieldValue r p.1)) := by
      intro q hq hmem
      rw [keysA, List.map_append] at hmem
      rcases List.mem_append.mp hmem with h1 | h1
      · exact habs q (List.mem_cons_of_mem _ hq) h1
      · have hq1 : q.1 = p.1 := keysA_attrEntry h1
        have : p.1 ∈ rest.map Prod.fst := List.mem_map.mpr ⟨q, hq, hq1⟩
        rw [List.map_cons] at hnames
        exact (List.nodup_cons.mp hnames).1 this
    have hrec := fold_stmts_fields sc r i hrefs hnrt rest
      (attrs ++ attrEntry p.1 p.2 (fieldValue r p.1))
      (fun q hq => hsc q (List.mem_cons_of_mem _ hq))
      (fun q hq => hshape q (List.mem_cons_of_mem _ hq))
      (by rw [List.map_cons] at hnames; exact (List.nodup_cons.mp hnames).2)
      habs'
    rw [hrec]
    simp

theorem to_builtin_on_encoded (sc : Schema) (r : StructRec) (i : String)
    (hwf : wfSchema sc = true) (hconf : conformsTo r sc = true)
    (hstrict : strictValues r sc = true) (hi : i ≠ "") :
    (to_builtin ⟨allTriples i r sc⟩ (some i) (some sc)).2 =
      Except.ok [attrsToBuiltin ([("id", AttrVal.single (Node.pystr i))] ++
        (sc.attrs.map (fun p => attrEntry p.1 p.2 (fieldValue r p.1))).flatten)] := by
  have hnd := allTriples_nodup i r sc hwf hconf hstrict
  have hsubj := allTriples_subj i r sc
  have htype_mem : ((i, rdfType, Node.ref sc.rdf_resource) : Triple) ∈
      (⟨allTriples i r sc⟩ : Graph).triples := by
    show _ ∈ allTriples i r sc
    rw [allTriples]
    exact List.mem_cons_self _ _
  have hhs : (⟨allTriples i r sc⟩ : Graph).hasSubject i = true :=
    Graph.hasSubject_iff.mpr ⟨_, htype_mem, rfl⟩
  have hht : (⟨allTriples i r sc⟩ : Graph).hasTriple
      (i, rdfType, Node.ref sc.rdf_resource) = true :=
    Graph.hasTriple_iff.mpr htype_mem
  have hgs : get_subjects ⟨allTriples i r sc⟩ (some i) (some sc) =
      (⟨allTriples i r sc⟩, Except.ok [i]) := by
    rw [get_subjects]
    simp [make_ref, hi, hhs, hht]
  have hpo : (⟨allTriples i r sc⟩ : Graph).predicateObjects i =
      (allTriples i r sc).map (fun t => (t.2.1, t.2.2)) :=
    predicateObjects_uniform hsubj hnd
  have hfold : fold_stmts ((allTriples i r sc).map (fun t => (t.2.1, t.2.2)))
      [("id", AttrVal.single (Node.pystr i))] (some sc) =
      Except.ok ([("id", AttrVal.single (Node.pystr i))] ++
        (sc.attrs.map (fun p => attrEntry p.1 p.2 (fieldValue r p.1))).flatten) := by
    rw [allTriples, List.map_cons]
    show fold_stmts ((rdfType, Node.ref sc.rdf_resource) ::
      ((sc.attrs.map (fun p => fieldTriples i p.2 (fieldValue r p.1))).flatten.map
        (fun t => (t.2.1, t.2.2)))) [("id", AttrVal.single (Node.pystr i))] (some sc) = _
    rw [fold_stmts]
    rw [show update_attrs_from_stmt rdfType (Node.ref sc.rdf_resource)
        [("id", AttrVal.single (Node.pystr i))] (some sc) =
        Except.ok [("id", AttrVal.single (Node.pystr i))] from by
      rw [update_attrs_from_stmt, if_pos rfl]]
    show fold_stmts
        ((sc.attrs.map (fun p => fieldTriples i p.2 (fieldValue r p.1))).flatten.map
          (fun t => (t.2.1, t.2.2)))
        [("id", AttrVal.single (Node.pystr i))] (some sc) = _
    exact fold_stmts_fields sc r i (wfSchema_refs hwf) (wfSchema_not_rdfType hwf)
      sc.attrs [("id", AttrVal.single (Node.pystr i))]
      (fun p hp => hp) (fun p hp => (conformsTo_spec hconf p hp).2)
      (wfSchema_names hwf)
      (fun p hp hmem => by
        have h1 : p.1 = "id" := by simpa [keysA] using hmem
        exact wfSchema_id hwf (h1 ▸ List.mem_map.mpr ⟨p, hp, rfl⟩))
  have hitems : to_builtin_items ⟨allTriples i r sc⟩ (some sc) [i] =
      Except.ok [[("id", AttrVal.single (Node.pystr i))] ++
        (sc.attrs.map (fun p => attrEntry p.1 p.2 (fieldValue r p.1))).flatten] := by
    rw [to_builtin_items]
    rw [show to_builtin_item ⟨allTriples i r sc⟩ (some sc) i =
        Except.ok ([("id", AttrVal.single (Node.pystr i))] ++
          (sc.attrs.map (fun p => attrEntry p.1 p.2 (fieldValue r p.1))).flatten) from by
      rw [to_builtin_item, hpo]; exact hfold]
    rfl
  rw [to_builtin, hgs]
  show (match to_builtin_items ⟨allTriples i r sc⟩ (some sc) [i] with
    | Except.error e => ((⟨allTriples i r sc⟩ : Graph), Except.error e)
    | Except.ok items =>
      ((⟨allTriples i r sc⟩ : Graph), Except.ok (items.map attrsToBuiltin))).2 = _
  rw [hitems]
  rfl

theorem lookupB_cons {k k' : String} {v : BVal} {rest : List (String × BVal)} :
    lookupB ((k', v) :: rest) k = if k' = k then some v else lookupB rest k := by
  by_cases h : k' = k <;> simp [lookupB, List.find?_cons, h]

theorem lookupB_eq_none_iff {item : List (String × BVal)} {k : String} :
    lookupB item k = none ↔ k ∉ item.map Prod.fst := by
  induction item with
  | nil => simp [lookupB]
  | cons he rest ih =>
    rcases he with ⟨k', v⟩
    by_cases h : k' = k
    · subst h; simp [lookupB_cons]
    · simp only [lookupB_cons, if_neg h, List.map_cons, List.mem_cons, not_or, ih]
      constructor
      · intro h1; exact ⟨fun he => h he.symm, h1⟩
      · intro h1; exact h1.2

theorem lookupB_append_right {a b : List (String × BVal)} {k : String}
    (h : k ∉ a.map Prod.fst) : lookupB (a ++ b) k = lookupB b k := by
  induction a with
  | nil => simp
  | cons he rest ih =>
    rcases he with ⟨k', v⟩
    simp only [List.map_cons, List.mem_cons, not_or] at h
    rw [List.cons_append, lookupB_cons, if_neg (fun he => h.1 he.symm)]
    exact ih h.2

theorem keys_attrsToBuiltin (l : List (String × AttrVal)) :
    (attrsToBuiltin l).map Prod.fst = keysA l := by
  induction l with
  | nil => rfl
  | cons he rest ih =>
    rcases he with ⟨k, v⟩
    rcases v with n | m <;> simp [attrsToBuiltin, keysA] at ih ⊢ <;> exact ih

theorem attrsToBuiltin_attrEntry (name : String) (info : FieldInfo) (v : Value) :
    attrsToBuiltin (attrEntry name info v) =
      (match v with
       | Value.vnone => []
       | Value.vstr s => [(name, BVal.bsingle s)]
       | Value.vlist l =>
         if strsOf l = [] then [] else [(name, BVal.bmany (strsOf l))]) := by
  rcases v with _ | s | l
  · rfl
  · simp [attrEntry, attrsToBuiltin, nodeToB_nodeOf]
  · show attrsToBuiltin
        (if strsOf l = [] then []
         else [(name, AttrVal.many ((strsOf l).map (nodeOf info)))]) =
      (if strsOf l = [] then [] else [(name, BVal.bmany (strsOf l))])
    by_cases hss : strsOf l = []
    · simp [hss, attrsToBuiltin]
    · rw [if_neg hss, if_neg hss]
      simp only [attrsToBuiltin, List.map_cons, List.map_nil, List.map_map]
      have h2 : (strsOf l).map (nodeToB ∘ nodeOf info) = strsOf l := by
        have h1 : ∀ s ∈ strsOf l, (nodeToB ∘ nodeOf info) s = id s := by
          intro s _
          simp [Function.comp, nodeToB_nodeOf]
        rw [List.map_congr_left h1, List.map_id]
      rw [h2]

theorem lookupB_entriesB (r : StructRec) :
    ∀ (fields : List (String × FieldInfo)) (p : String × FieldInfo), p ∈ fields →
      (fields.map Prod.fst).Nodup →
      lookupB ((fields.map
          (fun q => attrsToBuiltin (attrEntry q.1 q.2 (fieldValue r q.1)))).flatten) p.1 =
        (match fieldValue r p.1 with
         | Value.vnone => none
         | Value.vstr s => some (BVal.bsingle s)
         | Value.vlist l =>
           if strsOf l = [] then none else some (BVal.bmany (strsOf l)))
  | [], p, hp, _ => absurd hp (List.not_mem_nil p)
  | q :: rest, p, hp, hnames => by
    rw [List.map_cons, List.flatten_cons]
    have hkeys_rest : ∀ x, x ∈ ((rest.map
        (fun q => attrsToBuiltin (attrEntry q.1 q.2 (fieldValue r q.1)))).flatten).map
          Prod.fst → x ∈ rest.map Prod.fst := by
      intro x hx
      rcases List.mem_map.mp hx with ⟨e, he, hex⟩
      rcases List.mem_flatten.mp he with ⟨l, hl, hel⟩
      rcases List.mem_map.mp hl with ⟨q', hq', heq⟩
      subst heq
      subst hex
      have h1 : e.1 ∈ (attrsToBuiltin (attrEntry q'.1 q'.2 (fieldValue r q'.1))).map
          Prod.fst := List.mem_map.mpr ⟨e, hel, rfl⟩
      rw [keys_attrsToBuiltin] at h1
      exact (keysA_attrEntry h1) ▸ List.mem_map.mpr ⟨q', hq', rfl⟩
    rw [List.map_cons] at hnames
    rcases List.mem_cons.mp hp with rfl | hp'
    · have hnotin : lookupB ((rest.map
          (fun q => attrsToBuiltin (attrEntry q.1 q.2 (fieldValue r q.1)))).flatten) p.1 =
          none := by
        refine lookupB_eq_none_iff.mpr ?_
        intro hmem
        exact (List.nodup_cons.mp hnames).1 (hkeys_rest p.1 hmem)
      rw [attrsToBuiltin_attrEntry]
      rcases hv : fieldValue r p.1 with _ | s | l
      · show lookupB (([] : List (String × BVal)) ++ _) p.1 = none
        rw [List.nil_append]; exact hnotin
      · show lookupB ([(p.1, BVal.bsingle s)] ++ _) p.1 = some (BVal.bsingle s)
        rw [List.singleton_append, lookupB_cons, if_pos rfl]
      · show lookupB ((if strsOf l = [] then []
            else [(p.1, BVal.bmany (strsOf l))]) ++ _) p.1 =
          (if strsOf l = [] then none else some (BVal.bmany (strsOf l)))
        by_cases hss : strsOf l = []
        · rw [if_pos hss, if_pos hss, List.nil_append]; exact hnotin
        · rw [if_neg hss, if_neg hss, List.singleton_append, lookupB_cons, if_pos rfl]
    · have hq1 : q.1 ≠ p.1 := by
        intro he
        exact (List.nodup_cons.mp hnames).1 (he ▸ List.mem_map.mpr ⟨p, hp', rfl⟩)
      rw [lookupB_append_right ?_]
      · exact lookupB_entriesB r rest p hp' (List.nodup_cons.mp hnames).2
      · intro hmem
        rw [keys_attrsToBuiltin] at hmem
        exact hq1 (keysA_attrEntry hmem).symm

theorem get_key_mapped (sc? : Option Schema) (f : (String × FieldInfo) → Value) :
    ∀ (fields : List (String × FieldInfo)) (p : String × FieldInfo), p ∈ fields →
      (fields.map Prod.fst).Nodup →
      get_key_or_attribute p.1
        { fields := fields.map (fun q => (q.1, f q)), schema := sc? } = some (f p)
  | [], p, hp, _ => absurd hp (List.not_mem_nil p)
  | q :: rest, p, hp, hnames => by
    rw [List.map_cons] at hnames
    rcases List.mem_cons.mp hp with rfl | hp'
    · simp [get_key_or_attribute, List.find?_cons]
    · have hq1 : q.1 ≠ p.1 := by
        intro he
        exact (List.nodup_cons.mp hnames).1 (he ▸ List.mem_map.mpr ⟨p, hp', rfl⟩)
      have ih := get_key_mapped sc? f rest p hp' (List.nodup_cons.mp hnames).2
      rw [get_key_or_attribute] at ih ⊢
      rw [List.map_cons, List.find?_cons]
      have : (decide ((q.1, f q).1 = p.1)) = false := by simpa using hq1
      rw [this]
      exact ih

/-- C1 amended: the round-trip `toStruct (subGraph (encode r S)) r.id S`
reproduces `r` on every schema-declared field, provided the schema is
well-formed (injective field/predicate maps, no `rdf:type` predicate,
no field named `id`), the record conforms to the schema and exposes a
nonempty identifier, and every sequence-valued field is nonempty and
duplicate-free — without the last condition the graph's set semantics
collapse duplicates and the round-trip fails (see the counterexample). -/
theorem from_struct_to_struct_roundtrip (sc : Schema) (r : StructRec) (i : String)
    (hwf : wfSchema sc = true) (hconf : conformsTo r sc = true)
    (hstrict : strictValues r sc = true)
    (hid : extract_id r = Except.ok (Value.vstr i)) (hi : i ≠ "") :
    ∃ g sub dec,
      from_struct r (some sc) none = Except.ok g ∧
      (sub_graph g i).2 = Except.ok sub ∧
      (to_struct sub i sc (some sc)).2 = Except.ok dec ∧
      ∀ p ∈ sc.attrs, get_key_or_attribute p.1 dec = get_key_or_attribute p.1 r := by
  have hnd := allTriples_nodup i r sc hwf hconf hstrict
  have hsubj := allTriples_subj i r sc
  have hsubgr : (sub_graph ⟨allTriples i r sc⟩ i).2 =
      Except.ok ⟨allTriples i r sc⟩ := by
    have h := sub_graph_uniform ⟨allTriples i r sc⟩ i
      (by rw [allTriples]; exact List.cons_ne_nil _ _) hsubj hnd
    exact h
  have hb2 := to_builtin_on_encoded sc r i hwf hconf hstrict hi
  have hb1 := to_builtin_fst ⟨allTriples i r sc⟩ (some i) (some sc)
  refine ⟨⟨allTriples i r sc⟩, ⟨allTriples i r sc⟩,
    convertToStruct (attrsToBuiltin ([("id", AttrVal.single (Node.pystr i))] ++
      (sc.attrs.map (fun p => attrEntry p.1 p.2 (fieldValue r p.1))).flatten)) sc,
    from_struct_encodes sc r i hwf hconf hstrict hid, hsubgr, ?_, ?_⟩
  · rw [to_struct]
    show (match to_builtin ⟨allTriples i r sc⟩ (some i) (some sc) with
      | (g1, Except.error e) => (g1, Except.error e)
      | (g1, Except.ok []) => (g1, Except.error (PyErr.indexError "list index out of range"))
      | (g1, Except.ok (item :: _)) => (g1, Except.ok (convertToStruct item sc))).2 = _
    rcases hb : to_builtin ⟨allTriples i r sc⟩ (some i) (some sc) with ⟨g1, res⟩
    rw [hb] at hb2
    dsimp only at hb2
    subst hb2
    rfl
  · intro p hp
    have hitem :
        get_key_or_attribute p.1
          (convertToStruct (attrsToBuiltin ([("id", AttrVal.single (Node.pystr i))] ++
            (sc.attrs.map (fun p => attrEntry p.1 p.2 (fieldValue r p.1))).flatten)) sc) =
        some (match lookupB (attrsToBuiltin ([("id", AttrVal.single (Node.pystr i))] ++
            (sc.attrs.map (fun p => attrEntry p.1 p.2 (fieldValue r p.1))).flatten)) p.1 with
          | none => Value.vnone
          | some (BVal.bsingle s) => Value.vstr s
          | some (BVal.bmany l) => Value.vlist (l.map Value.vstr)) := by
      rw [convertToStruct]
      exact get_key_mapped (some sc) _ sc.attrs p hp (wfSchema_names hwf)
    have hpid : p.1 ≠ "id" := by
      intro he
      exact wfSchema_id hwf (he ▸ List.mem_map.mpr ⟨p, hp, rfl⟩)
    have hflat : attrsToBuiltin ([("id", AttrVal.single (Node.pystr i))] ++
        (sc.attrs.map (fun p => attrEntry p.1 p.2 (fieldValue r p.1))).flatten) =
        ("id", BVal.bsingle i) ::
          (sc.attrs.map
            (fun q => attrsToBuiltin (attrEntry q.1 q.2 (fieldValue r q.1)))).flatten := by
      rw [attrsToBuiltin, List.map_append]
      show ("id", BVal.bsingle (nodeToB (Node.pystr i))) ::
        ((sc.attrs.map (fun p => attrEntry p.1 p.2 (fieldValue r p.1))).flatten.map _) = _
      rw [List.map_flatten, List.map_map]
      rfl
    have hlook : lookupB (attrsToBuiltin ([("id", AttrVal.single (Node.pystr i))] ++
        (sc.attrs.map (fun p => attrEntry p.1 p.2 (fieldValue r p.1))).flatten)) p.1 =
        (match fieldValue r p.1 with
         | Value.vnone => none
         | Value.vstr s => some (BVal.bsingle s)
         | Value.vlist l =>
           if strsOf l = [] then none else some (BVal.bmany (strsOf l))) := by
      rw [hflat, lookupB_cons, if_neg (fun he => hpid he.symm)]
      exact lookupB_entriesB r sc.attrs p hp (wfSchema_names hwf)
    rw [hitem, hlook]
    have hsome := (conformsTo_spec hconf p hp).1
    rcases Option.isSome_iff_exists.mp hsome with ⟨v, hv⟩
    have hfv : fieldValue r p.1 = v := by rw [fieldValue, hv]; rfl
    rw [hv, hfv]
    rcases v with _ | s | l
    · rfl
    · rfl
    · have hsh := (conformsTo_spec hconf p hp).2
      rw [hfv, shapeOKb] at hsh
      simp only [Bool.and_eq_true] at hsh
      rcases strictValues_spec hstrict p hp l hfv with ⟨hne, _⟩
      dsimp only
      rw [if_neg (strsOf_ne_nil l hsh.2 hne)]
      show some (Value.vlist ((strsOf l).map Value.vstr)) = some (Value.vlist l)
      rw [strsOf_map_vstr l hsh.2]

/-- Witness for C1's amended round-trip at the spec-section-8 example
record. -/
theorem from_struct_to_struct_roundtrip_witness :
    ∃ g sub dec,
      from_struct rAlice (some scPerson) none = Except.ok g ∧
      (sub_graph g "ex:alice").2 = Except.ok sub ∧
      (to_struct sub "ex:alice" scPerson (some scPerson)).2 = Except.ok dec ∧
      ∀ p ∈ scPerson.attrs,
        get_key_or_attribute p.1 dec = get_key_or_attribute p.1 rAlice :=
  from_struct_to_struct_roundtrip scPerson rAlice "ex:alice"
    (by decide) (by decide) (by decide) rfl (by decide)

end Appnlib
